import Mathlib

/-! CoreSight trace ID allocator.

A shallow embedding of `drivers/hwtracing/coresight/coresight-trace-id.c`.

* The bitmap `used_ids` is a natural number read bit by bit.
* The per-CPU table `cpu_map` is a list of integers indexed by CPU number; a CPU
  is valid when its index is below the length of the list.
* Trace ids and return values are C `int`s, modelled as `Int`; negative values
  are errno codes.
* Every function of the source runs with the map's lock held (or, for the
  session counter, on an atomic), so a call is one state transformation.
* The `while` loop of `coresight_trace_id_find_odd_id` is run with an
  iteration budget and yields `none` when the budget is used up.
* The session counter `perf_cs_etm_session_active` is an integer counter
  (`Int`): the number of sessions stays far from the bounds of an `atomic_t`,
  so no wrap-around is modelled.
-/

namespace CoresightTraceId

/-! ## Constants of `coresight-trace-id.h` and of the kernel -/

/-- Modelled from the spec: the constants and the legacy-id macro of
`coresight-trace-id.h`, which the source includes. `CORESIGHT_TRACE_IDS_MAX` is
the size `N` of the bitmap, `CORESIGHT_TRACE_ID_RES_TOP` is the `limit` of the
allocatable range and `CORESIGHT_LEGACY_CPU_TRACE_ID` is `legacyId(cpu)`. -/
structure trace_id_consts where
  CORESIGHT_TRACE_IDS_MAX : Nat
  CORESIGHT_TRACE_ID_RES_TOP : Nat
  CORESIGHT_LEGACY_CPU_TRACE_ID : Nat → Int

/-- The values of the mainline header: 128 ids, the top of the range reserved
at `0x70`, legacy CPU id `0x10 + 2 * cpu`. -/
def mainline : trace_id_consts where
  CORESIGHT_TRACE_IDS_MAX := 128
  CORESIGHT_TRACE_ID_RES_TOP := 0x70
  CORESIGHT_LEGACY_CPU_TRACE_ID := fun cpu => 0x10 + 2 * (cpu : Int)

/-- Modelled from the spec: the errno `EBUSY` of the kernel headers, the `Busy`
result of a static request. -/
def EBUSY : Int := 16

/-- Modelled from the spec: the errno `EINVAL` of the kernel headers, the
`InvalidArgument` result, which the source also returns on exhaustion. -/
def EINVAL : Int := 22

/-- Flag `TRACE_ID_ANY` of `enum trace_id_flags`. -/
def TRACE_ID_ANY : Nat := 0x0

/-- Flag `TRACE_ID_PREFER_ODD` of `enum trace_id_flags`. -/
def TRACE_ID_PREFER_ODD : Nat := 0x1

/-- Flag `TRACE_ID_REQ_STATIC` of `enum trace_id_flags`. -/
def TRACE_ID_REQ_STATIC : Nat := 0x2

/-- Modelled from the spec: the macro `IS_VALID_CS_TRACE_ID` of
`coresight-trace-id.h`; an id is valid when it is not 0 and below the limit. -/
def IS_VALID_CS_TRACE_ID (k : trace_id_consts) (id : Int) : Bool :=
  decide (0 < id) && decide (id < (k.CORESIGHT_TRACE_ID_RES_TOP : Int))

/-! ## Bitmap primitives of the kernel -/

/-- Modelled from the spec: the kernel primitive `test_bit(nr, addr)`, bit `nr`
of the bitmap is set. -/
def test_bit (nr : Nat) (addr : Nat) : Bool := addr.testBit nr

/-- Modelled from the spec: the kernel primitive `set_bit(nr, addr)`, which sets
bit `nr` of the bitmap. -/
def set_bit (nr : Nat) (addr : Nat) : Nat := addr ||| (1 <<< nr)

/-- Modelled from the spec: the kernel primitive `clear_bit(nr, addr)`, which
clears bit `nr` of the bitmap. -/
def clear_bit (nr : Nat) (addr : Nat) : Nat :=
  if addr.testBit nr then addr ^^^ (1 <<< nr) else addr

/-- Modelled from the spec: the kernel primitive `bitmap_zero(dst, nbits)`, after
which the first `nbits` bits of the bitmap are 0. -/
def bitmap_zero (dst : Nat) (nbits : Nat) : Nat := (dst >>> nbits) <<< nbits

/-- The scan of `find_next_zero_bit`: look at `n` positions starting at `i`. -/
def find_next_zero_bit_scan (addr size : Nat) : Nat → Nat → Nat
  | 0, _ => size
  | n + 1, i => if addr.testBit i then find_next_zero_bit_scan addr size n (i + 1) else i

/-- Modelled from the spec: the kernel primitive
`find_next_zero_bit(addr, size, offset)`, the lowest position at or above
`offset` and below `size` whose bit is clear, and `size` when there is none. -/
def find_next_zero_bit (addr size offset : Nat) : Nat :=
  find_next_zero_bit_scan addr size (size - offset) offset

/-! ## The map -/

/-- The `struct coresight_trace_id_map`: bitmap, per-CPU ids, session counter.
The lock carries no data. -/
structure coresight_trace_id_map where
  used_ids : Nat
  cpu_map : List Int
  perf_cs_etm_session_active : Int
deriving DecidableEq, Repr

/-- Unlocked read of the current trace id of a CPU
(`atomic_read(per_cpu_ptr(id_map->cpu_map, cpu))`). -/
def _coresight_trace_id_read_cpu_id (cpu : Nat) (id_map : coresight_trace_id_map) : Int :=
  id_map.cpu_map.getD cpu 0

/-- The write `atomic_set(per_cpu_ptr(id_map->cpu_map, cpu), v)`. -/
def cpu_map_set (cpu : Nat) (v : Int) (id_map : coresight_trace_id_map) :
    coresight_trace_id_map :=
  { id_map with cpu_map := id_map.cpu_map.set cpu v }

/-- The `while` loop of `coresight_trace_id_find_odd_id`, with the loop
variables `found_id` and `bit` and an iteration budget. -/
def find_odd_id_loop (k : trace_id_consts) (used_ids : Nat) : Nat → Nat → Nat → Option Nat
  | 0, found_id, bit =>
    if bit < k.CORESIGHT_TRACE_ID_RES_TOP ∧ found_id = 0 then none else some found_id
  | fuel + 1, found_id, bit =>
    if bit < k.CORESIGHT_TRACE_ID_RES_TOP ∧ found_id = 0 then
      let next_id := find_next_zero_bit used_ids k.CORESIGHT_TRACE_ID_RES_TOP bit
      if next_id < k.CORESIGHT_TRACE_ID_RES_TOP ∧ next_id &&& 0x1 ≠ 0 then
        find_odd_id_loop k used_ids fuel next_id bit
      else
        find_odd_id_loop k used_ids fuel found_id (next_id + 1)
    else some found_id

/-- Look for the next available odd id, 0 if none is found. The loop gets one
iteration per position of the range. -/
def coresight_trace_id_find_odd_id (k : trace_id_consts) (id_map : coresight_trace_id_map) :
    Option Nat :=
  find_odd_id_loop k id_map.used_ids k.CORESIGHT_TRACE_ID_RES_TOP 0 1

/-- The label `trace_id_allocated`: mark the id as used and return it. -/
def trace_id_allocated (id : Nat) (id_map : coresight_trace_id_map) :
    Int × coresight_trace_id_map :=
  ((id : Int), { id_map with used_ids := set_bit id id_map.used_ids })

/-- The tail of `coresight_trace_id_alloc_new_id`: skip the reserved bit 0 and
take the next free id below the limit, or fail with `-EINVAL`. -/
def alloc_next_free (k : trace_id_consts) (id_map : coresight_trace_id_map) :
    Int × coresight_trace_id_map :=
  let id := find_next_zero_bit id_map.used_ids k.CORESIGHT_TRACE_ID_RES_TOP 1
  if id ≥ k.CORESIGHT_TRACE_ID_RES_TOP then (-EINVAL, id_map)
  else trace_id_allocated id id_map

/-- Allocate a new id and set it in use. -/
def coresight_trace_id_alloc_new_id (k : trace_id_consts) (id_map : coresight_trace_id_map)
    (preferred_id : Int) (flags : Nat) : Option (Int × coresight_trace_id_map) :=
  if IS_VALID_CS_TRACE_ID k preferred_id then
    if !test_bit preferred_id.toNat id_map.used_ids then
      some (trace_id_allocated preferred_id.toNat id_map)
    else if flags &&& TRACE_ID_REQ_STATIC ≠ 0 then
      some (-EBUSY, id_map)
    else
      some (alloc_next_free k id_map)
  else if flags &&& TRACE_ID_PREFER_ODD ≠ 0 then
    match coresight_trace_id_find_odd_id k id_map with
    | none => none
    | some id =>
      if id ≠ 0 then some (trace_id_allocated id id_map)
      else some (alloc_next_free k id_map)
  else if !IS_VALID_CS_TRACE_ID k preferred_id ∧ flags &&& TRACE_ID_REQ_STATIC ≠ 0 then
    some (-EINVAL, id_map)
  else
    some (alloc_next_free k id_map)

/-- Release one id: nothing happens for an invalid id or for an id that is not
in use (both only warn). -/
def coresight_trace_id_free (k : trace_id_consts) (id : Int) (id_map : coresight_trace_id_map) :
    coresight_trace_id_map :=
  if !IS_VALID_CS_TRACE_ID k id then id_map
  else if !test_bit id.toNat id_map.used_ids then id_map
  else { id_map with used_ids := clear_bit id.toNat id_map.used_ids }

/-- Release all ids and clear the CPU associations. -/
def coresight_trace_id_release_all (k : trace_id_consts) (id_map : coresight_trace_id_map) :
    coresight_trace_id_map :=
  { id_map with
    used_ids := bitmap_zero id_map.used_ids k.CORESIGHT_TRACE_IDS_MAX
    cpu_map := id_map.cpu_map.map (fun _ => 0) }

/-- The id of a CPU: the existing one, or a newly allocated one with the legacy
value preferred. -/
def _coresight_trace_id_get_cpu_id (k : trace_id_consts) (cpu : Nat)
    (id_map : coresight_trace_id_map) : Option (Int × coresight_trace_id_map) :=
  let id := _coresight_trace_id_read_cpu_id cpu id_map
  if id ≠ 0 then some (id, id_map)
  else
    match coresight_trace_id_alloc_new_id k id_map (k.CORESIGHT_LEGACY_CPU_TRACE_ID cpu)
        TRACE_ID_ANY with
    | none => none
    | some (id, id_map1) =>
      if !IS_VALID_CS_TRACE_ID k id then some (id, id_map1)
      else some (id, cpu_map_set cpu id id_map1)

/-- Release the id of a CPU, if it has one. -/
def _coresight_trace_id_put_cpu_id (k : trace_id_consts) (cpu : Nat)
    (id_map : coresight_trace_id_map) : coresight_trace_id_map :=
  let id := _coresight_trace_id_read_cpu_id cpu id_map
  if id = 0 then id_map
  else cpu_map_set cpu 0 (coresight_trace_id_free k id id_map)

/-- Allocate a system id on a map. -/
def coresight_trace_id_map_get_system_id (k : trace_id_consts) (id_map : coresight_trace_id_map)
    (preferred_id : Int) (traceid_flags : Nat) : Option (Int × coresight_trace_id_map) :=
  coresight_trace_id_alloc_new_id k id_map preferred_id traceid_flags

/-- Release a system id on a map. -/
def coresight_trace_id_map_put_system_id (k : trace_id_consts) (id_map : coresight_trace_id_map)
    (id : Int) : coresight_trace_id_map :=
  coresight_trace_id_free k id id_map

/-- API `coresight_trace_id_get_system_id`: odd ids are preferred. -/
def coresight_trace_id_get_system_id (k : trace_id_consts) (id_map : coresight_trace_id_map) :
    Option (Int × coresight_trace_id_map) :=
  coresight_trace_id_map_get_system_id k id_map 0 TRACE_ID_PREFER_ODD

/-- API `coresight_trace_id_get_static_system_id`: exactly the requested id. -/
def coresight_trace_id_get_static_system_id (k : trace_id_consts)
    (id_map : coresight_trace_id_map) (trace_id : Int) :
    Option (Int × coresight_trace_id_map) :=
  coresight_trace_id_map_get_system_id k id_map trace_id TRACE_ID_REQ_STATIC

/-- API `coresight_trace_id_put_system_id`. -/
def coresight_trace_id_put_system_id (k : trace_id_consts) (id_map : coresight_trace_id_map)
    (id : Int) : coresight_trace_id_map :=
  coresight_trace_id_map_put_system_id k id_map id

/-- Modelled from the spec: the kernel primitive `atomic_inc` on the session
counter, an integer counter that is incremented. -/
def atomic_inc (v : Int) : Int := v + 1

/-- Modelled from the spec: the kernel primitive `atomic_dec_return` on the
session counter, which decrements the integer counter and returns the new
value; the value given here is both. -/
def atomic_dec_return (v : Int) : Int := v - 1

/-- API `coresight_trace_id_perf_start`: one more active session. -/
def coresight_trace_id_perf_start (id_map : coresight_trace_id_map) : coresight_trace_id_map :=
  { id_map with perf_cs_etm_session_active := atomic_inc id_map.perf_cs_etm_session_active }

/-- API `coresight_trace_id_perf_stop`: one session less, and everything is
released when the decremented counter is 0. -/
def coresight_trace_id_perf_stop (k : trace_id_consts) (id_map : coresight_trace_id_map) :
    coresight_trace_id_map :=
  let id_map1 : coresight_trace_id_map :=
    { id_map with
      perf_cs_etm_session_active := atomic_dec_return id_map.perf_cs_etm_session_active }
  if atomic_dec_return id_map.perf_cs_etm_session_active = 0 then
    coresight_trace_id_release_all k id_map1
  else id_map1

/-! ## Vocabulary of the statements -/

/-- The map before any call, for `nr_cpus` possible CPUs: no bit set, no CPU
with an id, no active session. -/
def id_map_init (nr_cpus : Nat) : coresight_trace_id_map :=
  ⟨0, List.replicate nr_cpus 0, 0⟩

/-- The public operations that change a map. -/
inductive api_call where
  | get_cpu_id (cpu : Nat)
  | put_cpu_id (cpu : Nat)
  | get_system_id
  | get_static_system_id (trace_id : Int)
  | put_system_id (id : Int)
  | perf_start
  | perf_stop
deriving DecidableEq, Repr

/-- The map after one public operation (`none` only if the odd search ran out
of budget). -/
def api_step (k : trace_id_consts) (id_map : coresight_trace_id_map) :
    api_call → Option coresight_trace_id_map
  | .get_cpu_id cpu => (_coresight_trace_id_get_cpu_id k cpu id_map).map Prod.snd
  | .put_cpu_id cpu => some (_coresight_trace_id_put_cpu_id k cpu id_map)
  | .get_system_id => (coresight_trace_id_get_system_id k id_map).map Prod.snd
  | .get_static_system_id trace_id =>
    (coresight_trace_id_get_static_system_id k id_map trace_id).map Prod.snd
  | .put_system_id id => some (coresight_trace_id_put_system_id k id_map id)
  | .perf_start => some (coresight_trace_id_perf_start id_map)
  | .perf_stop => some (coresight_trace_id_perf_stop k id_map)

/-- The map after a sequence of public operations, in order. -/
def api_run (k : trace_id_consts) : coresight_trace_id_map → List api_call →
    Option coresight_trace_id_map
  | id_map, [] => some id_map
  | id_map, c :: cs =>
    match api_step k id_map c with
    | none => none
    | some id_map1 => api_run k id_map1 cs

/-- The call is a session call. -/
def is_session : api_call → Bool
  | .perf_start => true
  | .perf_stop => true
  | _ => false

/-- The call is no `put_system_id` of an id that a CPU currently holds. -/
def put_respects_cpus (id_map : coresight_trace_id_map) : api_call → Bool
  | .put_system_id id => id_map.cpu_map.all (fun x => x == 0 || x != id)
  | _ => true

/-- In the sequence every `put_system_id` is for an id that no CPU holds at the
time of the call. -/
def well_behaved (k : trace_id_consts) : coresight_trace_id_map → List api_call → Bool
  | _, [] => true
  | id_map, c :: cs =>
    put_respects_cpus id_map c &&
      match api_step k id_map c with
      | none => false
      | some id_map1 => well_behaved k id_map1 cs

/-- Ownership by CPUs: every entry that is not 0 names an id whose bit is set,
and two CPUs never hold the same id. -/
def owned_by_cpus (id_map : coresight_trace_id_map) : Prop :=
  (∀ cpu, _coresight_trace_id_read_cpu_id cpu id_map ≠ 0 →
    test_bit (_coresight_trace_id_read_cpu_id cpu id_map).toNat id_map.used_ids = true) ∧
  ∀ c1 c2, c1 ≠ c2 → _coresight_trace_id_read_cpu_id c1 id_map ≠ 0 →
    _coresight_trace_id_read_cpu_id c1 id_map ≠ _coresight_trace_id_read_cpu_id c2 id_map

/-- Every set bit and every entry that is not 0 is an id of `[1, limit)`. -/
def ids_in_range (k : trace_id_consts) (id_map : coresight_trace_id_map) : Prop :=
  (∀ j, test_bit j id_map.used_ids = true → 1 ≤ j ∧ j < k.CORESIGHT_TRACE_ID_RES_TOP) ∧
  ∀ cpu, _coresight_trace_id_read_cpu_id cpu id_map ≠ 0 →
    IS_VALID_CS_TRACE_ID k (_coresight_trace_id_read_cpu_id cpu id_map) = true

/-- Call `get_cpu_id` for each CPU of the list in order, collecting the results. -/
def get_cpu_id_each (k : trace_id_consts) : coresight_trace_id_map → List Nat →
    Option (List Int × coresight_trace_id_map)
  | id_map, [] => some ([], id_map)
  | id_map, cpu :: cpus =>
    match _coresight_trace_id_get_cpu_id k cpu id_map with
    | none => none
    | some (id, id_map1) =>
      match get_cpu_id_each k id_map1 cpus with
      | none => none
      | some (ids, id_map2) => some (id :: ids, id_map2)

/-- The map with its session counter replaced. -/
def with_counter (c : Int) (id_map : coresight_trace_id_map) : coresight_trace_id_map :=
  { id_map with perf_cs_etm_session_active := c }

/-- The ids of `[1, limit)` that are in use. -/
def ids_in_use (k : trace_id_consts) (used_ids : Nat) : Finset Nat :=
  (Finset.Ico 1 k.CORESIGHT_TRACE_ID_RES_TOP).filter (fun j => test_bit j used_ids = true)


/-- The three allocating calls of the API. -/
inductive alloc_call where
  | get_system_id
  | get_static_system_id (trace_id : Int)
  | get_cpu_id (cpu : Nat)
deriving DecidableEq, Repr

/-- Run an allocating call on a map. -/
def run_alloc (k : trace_id_consts) (id_map : coresight_trace_id_map) :
    alloc_call → Option (Int × coresight_trace_id_map)
  | .get_system_id => coresight_trace_id_get_system_id k id_map
  | .get_static_system_id trace_id => coresight_trace_id_get_static_system_id k id_map trace_id
  | .get_cpu_id cpu => _coresight_trace_id_get_cpu_id k cpu id_map

/-- A call allocates afresh: a `get_cpu_id` is for a CPU with no current id. -/
def allocates_afresh (id_map : coresight_trace_id_map) : alloc_call → Prop
  | .get_cpu_id cpu => _coresight_trace_id_read_cpu_id cpu id_map = 0
  | _ => True

instance allocates_afresh_decidable (id_map : coresight_trace_id_map) (c : alloc_call) :
    Decidable (allocates_afresh id_map c) := by
  cases c <;> unfold allocates_afresh <;> infer_instance

/-- The id `id` is the lowest free id of `[1, limit)`. -/
def lowest_free (k : trace_id_consts) (used_ids : Nat) (id : Nat) : Prop :=
  1 ≤ id ∧ id < k.CORESIGHT_TRACE_ID_RES_TOP ∧ test_bit id used_ids = false ∧
    ∀ j, 1 ≤ j → j < id → test_bit j used_ids = true

/-- The id `id` is the lowest free odd id of `[1, limit)`. -/
def lowest_free_odd (k : trace_id_consts) (used_ids : Nat) (id : Nat) : Prop :=
  id < k.CORESIGHT_TRACE_ID_RES_TOP ∧ id % 2 = 1 ∧ test_bit id used_ids = false ∧
    ∀ j, j < id → j % 2 = 1 → test_bit j used_ids = true

/-- Every id of `[1, limit)` is in use. -/
def all_in_use (k : trace_id_consts) (used_ids : Nat) : Prop :=
  ∀ j, 1 ≤ j → j < k.CORESIGHT_TRACE_ID_RES_TOP → test_bit j used_ids = true

instance lowest_free_decidable (k : trace_id_consts) (used_ids id : Nat) :
    Decidable (lowest_free k used_ids id) :=
  decidable_of_iff
    (1 ≤ id ∧ id < k.CORESIGHT_TRACE_ID_RES_TOP ∧ test_bit id used_ids = false ∧
      ∀ j, j < id → 1 ≤ j → test_bit j used_ids = true)
    (by
      unfold lowest_free
      constructor
      · rintro ⟨h1, h2, h3, h4⟩
        exact ⟨h1, h2, h3, fun j hj1 hj2 => h4 j hj2 hj1⟩
      · rintro ⟨h1, h2, h3, h4⟩
        exact ⟨h1, h2, h3, fun j hj1 hj2 => h4 j hj2 hj1⟩)

instance lowest_free_odd_decidable (k : trace_id_consts) (used_ids id : Nat) :
    Decidable (lowest_free_odd k used_ids id) := by
  unfold lowest_free_odd
  infer_instance

instance all_in_use_decidable (k : trace_id_consts) (used_ids : Nat) :
    Decidable (all_in_use k used_ids) :=
  decidable_of_iff
    (∀ j, j < k.CORESIGHT_TRACE_ID_RES_TOP → 1 ≤ j → test_bit j used_ids = true)
    (by
      unfold all_in_use
      constructor
      · intro h j hj1 hj2
        exact h j hj2 hj1
      · intro h j hj1 hj2
        exact h j hj2 hj1)

/-! ## Lemmas on the bitmap primitives -/

theorem test_bit_set_bit (i j a : Nat) :
    test_bit j (set_bit i a) = (decide (j = i) || test_bit j a) := by
  simp [test_bit, set_bit, Nat.testBit_or, Nat.one_shiftLeft, Nat.testBit_two_pow,
    Bool.or_comm, eq_comm]

theorem test_bit_set_bit_self (i a : Nat) : test_bit i (set_bit i a) = true := by
  simp [test_bit_set_bit]

theorem test_bit_set_bit_of_ne (i j a : Nat) (h : j ≠ i) :
    test_bit j (set_bit i a) = test_bit j a := by
  simp [test_bit_set_bit, h]

theorem test_bit_clear_bit (i j a : Nat) :
    test_bit j (clear_bit i a) = (decide (j ≠ i) && test_bit j a) := by
  unfold clear_bit test_bit
  by_cases hi : a.testBit i = true
  · by_cases hj : j = i
    · subst hj
      simp [hi, Nat.testBit_xor, Nat.one_shiftLeft, Nat.testBit_two_pow]
    · have hj2 : ¬ i = j := fun h => hj h.symm
      simp [hi, hj, hj2, Nat.testBit_xor, Nat.one_shiftLeft, Nat.testBit_two_pow]
  · by_cases hj : j = i
    · subst hj
      simp [hi]
    · simp [hi, hj]

theorem test_bit_bitmap_zero (dst nbits j : Nat) :
    test_bit j (bitmap_zero dst nbits) = (decide (nbits ≤ j) && test_bit j dst) := by
  unfold bitmap_zero test_bit
  rw [Nat.testBit_shiftLeft, Nat.testBit_shiftRight]
  by_cases h : nbits ≤ j
  · have : nbits + (j - nbits) = j := by omega
    simp [h, this]
  · simp [h]

theorem find_next_zero_bit_scan_spec (addr size : Nat) :
    ∀ n i, i + n = size →
      i ≤ find_next_zero_bit_scan addr size n i ∧
      find_next_zero_bit_scan addr size n i ≤ size ∧
      (find_next_zero_bit_scan addr size n i < size →
        test_bit (find_next_zero_bit_scan addr size n i) addr = false) ∧
      ∀ j, i ≤ j → j < find_next_zero_bit_scan addr size n i → test_bit j addr = true := by
  intro n
  induction n with
  | zero =>
    intro i h
    simp only [find_next_zero_bit_scan]
    refine ⟨by omega, le_refl _, fun h2 => absurd h2 (lt_irrefl _), ?_⟩
    intro j h1 h2
    omega
  | succ n ih =>
    intro i h
    simp only [find_next_zero_bit_scan]
    by_cases hb : addr.testBit i = true
    · simp only [hb, if_true]
      obtain ⟨h1, h2, h3, h4⟩ := ih (i + 1) (by omega)
      refine ⟨by omega, h2, h3, ?_⟩
      intro j hj1 hj2
      by_cases hji : j = i
      · subst hji
        exact hb
      · exact h4 j (by omega) hj2
    · have hb2 : addr.testBit i = false := by simpa using hb
      simp only [hb2, Bool.false_eq_true, if_false]
      refine ⟨le_refl _, by omega, fun _ => ?_, ?_⟩
      · simpa [test_bit] using hb2
      · intro j h1 h2
        omega

/-- What `find_next_zero_bit` returns: at most `size`; when below `size`, a
clear position at or above `offset`; and every position from `offset` up to the
result is set. -/
theorem find_next_zero_bit_spec (addr size offset : Nat) :
    find_next_zero_bit addr size offset ≤ size ∧
    (offset ≤ size → offset ≤ find_next_zero_bit addr size offset) ∧
    (find_next_zero_bit addr size offset < size →
      offset ≤ find_next_zero_bit addr size offset ∧
      test_bit (find_next_zero_bit addr size offset) addr = false) ∧
    ∀ j, offset ≤ j → j < find_next_zero_bit addr size offset → test_bit j addr = true := by
  unfold find_next_zero_bit
  by_cases h : offset ≤ size
  · obtain ⟨h1, h2, h3, h4⟩ := find_next_zero_bit_scan_spec addr size (size - offset) offset
      (by omega)
    exact ⟨h2, fun _ => h1, fun hlt => ⟨h1, h3 hlt⟩, h4⟩
  · have hz : size - offset = 0 := by omega
    rw [hz]
    simp only [find_next_zero_bit_scan]
    refine ⟨le_refl _, fun h2 => absurd h2 h, fun h2 => absurd h2 (lt_irrefl _), ?_⟩
    intro j h1 h2
    omega

/-- Once an id is found the loop stops with it, whatever the budget. -/
theorem find_odd_id_loop_found (k : trace_id_consts) (used_ids : Nat) (fuel found_id bit : Nat)
    (h : found_id ≠ 0) : find_odd_id_loop k used_ids fuel found_id bit = some found_id := by
  cases fuel <;> simp [find_odd_id_loop, h]

/-- The loop of the odd search, started with nothing found at a position below
which no odd id is free and with a budget that reaches the limit, ends, either
with 0 when no odd id of the range is free or with the lowest free odd id. -/
theorem find_odd_id_loop_spec (k : trace_id_consts) (used_ids : Nat) :
    ∀ fuel bit, k.CORESIGHT_TRACE_ID_RES_TOP ≤ fuel + bit →
      (∀ j, j < bit → j < k.CORESIGHT_TRACE_ID_RES_TOP → j % 2 = 1 →
        test_bit j used_ids = true) →
      ∃ r, find_odd_id_loop k used_ids fuel 0 bit = some r ∧
        ((r = 0 ∧ ∀ j, j < k.CORESIGHT_TRACE_ID_RES_TOP → j % 2 = 1 →
            test_bit j used_ids = true) ∨
          lowest_free_odd k used_ids r) := by
  intro fuel
  induction fuel with
  | zero =>
    intro bit hf hinv
    have hb : ¬ bit < k.CORESIGHT_TRACE_ID_RES_TOP := by omega
    refine ⟨0, by simp [find_odd_id_loop, hb], Or.inl ⟨rfl, ?_⟩⟩
    intro j hj hodd
    exact hinv j (by omega) hj hodd
  | succ fuel ih =>
    intro bit hf hinv
    by_cases hb : bit < k.CORESIGHT_TRACE_ID_RES_TOP
    · obtain ⟨h1, h2, h3, h4⟩ :=
        find_next_zero_bit_spec used_ids k.CORESIGHT_TRACE_ID_RES_TOP bit
      by_cases hfound : find_next_zero_bit used_ids k.CORESIGHT_TRACE_ID_RES_TOP bit
            < k.CORESIGHT_TRACE_ID_RES_TOP ∧
          find_next_zero_bit used_ids k.CORESIGHT_TRACE_ID_RES_TOP bit &&& 0x1 ≠ 0
      · obtain ⟨hlt, hodd⟩ := hfound
        have hodd2 : find_next_zero_bit used_ids k.CORESIGHT_TRACE_ID_RES_TOP bit % 2 = 1 := by
          rw [Nat.and_one_is_mod] at hodd
          omega
        have hne : find_next_zero_bit used_ids k.CORESIGHT_TRACE_ID_RES_TOP bit ≠ 0 := by
          intro h0
          rw [h0] at hodd2
          omega
        refine ⟨find_next_zero_bit used_ids k.CORESIGHT_TRACE_ID_RES_TOP bit, ?_, Or.inr ?_⟩
        · simp only [find_odd_id_loop, hb, true_and, if_true, hlt, hodd, ne_eq,
            not_false_eq_true]
          exact find_odd_id_loop_found k used_ids fuel _ bit hne
        · refine ⟨hlt, hodd2, (h3 hlt).2, ?_⟩
          intro j hj hjodd
          by_cases hjb : j < bit
          · exact hinv j hjb (by omega) hjodd
          · exact h4 j (by omega) hj
      · have hstep : find_odd_id_loop k used_ids (fuel + 1) 0 bit
            = find_odd_id_loop k used_ids fuel 0
                (find_next_zero_bit used_ids k.CORESIGHT_TRACE_ID_RES_TOP bit + 1) := by
          simp only [find_odd_id_loop, hb, true_and, if_true, hfound, if_false]
        rw [hstep]
        have hle := h2 (le_of_lt hb)
        apply ih _ (by omega)
        intro j hj hjtop hjodd
        by_cases hjb : j < bit
        · exact hinv j hjb hjtop hjodd
        · by_cases hjn : j < find_next_zero_bit used_ids k.CORESIGHT_TRACE_ID_RES_TOP bit
          · exact h4 j (by omega) hjn
          · exfalso
            have hjeq : j = find_next_zero_bit used_ids k.CORESIGHT_TRACE_ID_RES_TOP bit := by
              omega
            apply hfound
            rw [← hjeq]
            refine ⟨hjtop, ?_⟩
            rw [Nat.and_one_is_mod]
            omega
    · refine ⟨0, by simp [find_odd_id_loop, hb], Or.inl ⟨rfl, ?_⟩⟩
      intro j hj hodd
      exact hinv j (by omega) hj hodd

/-- The odd search always ends: `some 0` when every odd id of the range is in
use, and otherwise the lowest free odd id. -/
theorem coresight_trace_id_find_odd_id_spec (k : trace_id_consts)
    (id_map : coresight_trace_id_map) :
    ∃ r, coresight_trace_id_find_odd_id k id_map = some r ∧
      ((r = 0 ∧ ∀ j, j < k.CORESIGHT_TRACE_ID_RES_TOP → j % 2 = 1 →
          test_bit j id_map.used_ids = true) ∨
        lowest_free_odd k id_map.used_ids r) := by
  unfold coresight_trace_id_find_odd_id
  apply find_odd_id_loop_spec k id_map.used_ids k.CORESIGHT_TRACE_ID_RES_TOP 1 (by omega)
  intro j hj _ hodd
  omega

/-! ## Lemmas on the allocation core -/

theorem IS_VALID_CS_TRACE_ID_iff (k : trace_id_consts) (id : Int) :
    IS_VALID_CS_TRACE_ID k id = true ↔ 0 < id ∧ id < (k.CORESIGHT_TRACE_ID_RES_TOP : Int) := by
  simp [IS_VALID_CS_TRACE_ID]

theorem IS_VALID_CS_TRACE_ID_cast (k : trace_id_consts) (id : Nat) (h1 : 1 ≤ id)
    (h2 : id < k.CORESIGHT_TRACE_ID_RES_TOP) : IS_VALID_CS_TRACE_ID k (id : Int) = true := by
  rw [IS_VALID_CS_TRACE_ID_iff]
  omega

theorem IS_VALID_CS_TRACE_ID_neg_EINVAL (k : trace_id_consts) :
    IS_VALID_CS_TRACE_ID k (-EINVAL) = false := by
  simp [IS_VALID_CS_TRACE_ID, EINVAL]

theorem IS_VALID_CS_TRACE_ID_neg_EBUSY (k : trace_id_consts) :
    IS_VALID_CS_TRACE_ID k (-EBUSY) = false := by
  simp [IS_VALID_CS_TRACE_ID, EBUSY]

/-- The tail of the allocation: `-EINVAL` and no change when the range is
full, the lowest free id otherwise. -/
theorem alloc_next_free_spec (k : trace_id_consts) (id_map : coresight_trace_id_map) :
    (all_in_use k id_map.used_ids ∧ alloc_next_free k id_map = (-EINVAL, id_map)) ∨
    (∃ id, lowest_free k id_map.used_ids id ∧
      alloc_next_free k id_map = trace_id_allocated id id_map) := by
  obtain ⟨h1, h2, h3, h4⟩ :=
    find_next_zero_bit_spec id_map.used_ids k.CORESIGHT_TRACE_ID_RES_TOP 1
  by_cases hge : find_next_zero_bit id_map.used_ids k.CORESIGHT_TRACE_ID_RES_TOP 1
      ≥ k.CORESIGHT_TRACE_ID_RES_TOP
  · left
    refine ⟨?_, ?_⟩
    · intro j hj1 hj2
      exact h4 j hj1 (by omega)
    · simp only [alloc_next_free, hge, if_true]
  · right
    have hlt : find_next_zero_bit id_map.used_ids k.CORESIGHT_TRACE_ID_RES_TOP 1
        < k.CORESIGHT_TRACE_ID_RES_TOP := by omega
    refine ⟨find_next_zero_bit id_map.used_ids k.CORESIGHT_TRACE_ID_RES_TOP 1,
      ⟨(h3 hlt).1, hlt, (h3 hlt).2, ?_⟩, ?_⟩
    · intro j hj1 hj2
      exact h4 j hj1 hj2
    · simp only [alloc_next_free, hge, if_false]

/-- With a valid preferred id whose bit is clear, every flag value takes it. -/
theorem alloc_new_id_preferred_free (k : trace_id_consts) (id_map : coresight_trace_id_map)
    (preferred_id : Int) (flags : Nat) (hv : IS_VALID_CS_TRACE_ID k preferred_id = true)
    (hc : test_bit preferred_id.toNat id_map.used_ids = false) :
    coresight_trace_id_alloc_new_id k id_map preferred_id flags
      = some (trace_id_allocated preferred_id.toNat id_map) := by
  simp [coresight_trace_id_alloc_new_id, hv, hc]

/-- With `TRACE_ID_ANY` and a preferred id that is invalid or in use, the
allocation is the tail scan. -/
theorem alloc_new_id_any_fallback (k : trace_id_consts) (id_map : coresight_trace_id_map)
    (preferred_id : Int)
    (h : ¬ (IS_VALID_CS_TRACE_ID k preferred_id = true ∧
      test_bit preferred_id.toNat id_map.used_ids = false)) :
    coresight_trace_id_alloc_new_id k id_map preferred_id TRACE_ID_ANY
      = some (alloc_next_free k id_map) := by
  by_cases hv : IS_VALID_CS_TRACE_ID k preferred_id = true
  · have hs : test_bit preferred_id.toNat id_map.used_ids = true := by
      cases hb : test_bit preferred_id.toNat id_map.used_ids
      · exact absurd ⟨hv, hb⟩ h
      · rfl
    simp [coresight_trace_id_alloc_new_id, hv, hs, TRACE_ID_ANY, TRACE_ID_REQ_STATIC]
  · have hv2 : IS_VALID_CS_TRACE_ID k preferred_id = false := by simpa using hv
    simp [coresight_trace_id_alloc_new_id, hv2, TRACE_ID_ANY, TRACE_ID_REQ_STATIC,
      TRACE_ID_PREFER_ODD]

/-- With `TRACE_ID_REQ_STATIC` and a valid id in use, the result is `-EBUSY`. -/
theorem alloc_new_id_static_busy (k : trace_id_consts) (id_map : coresight_trace_id_map)
    (preferred_id : Int) (hv : IS_VALID_CS_TRACE_ID k preferred_id = true)
    (hs : test_bit preferred_id.toNat id_map.used_ids = true) :
    coresight_trace_id_alloc_new_id k id_map preferred_id TRACE_ID_REQ_STATIC
      = some (-EBUSY, id_map) := by
  simp [coresight_trace_id_alloc_new_id, hv, hs, TRACE_ID_REQ_STATIC]

/-- With `TRACE_ID_REQ_STATIC` and an invalid id, the result is `-EINVAL`. -/
theorem alloc_new_id_static_invalid (k : trace_id_consts) (id_map : coresight_trace_id_map)
    (preferred_id : Int) (hv : IS_VALID_CS_TRACE_ID k preferred_id = false) :
    coresight_trace_id_alloc_new_id k id_map preferred_id TRACE_ID_REQ_STATIC
      = some (-EINVAL, id_map) := by
  simp [coresight_trace_id_alloc_new_id, hv, TRACE_ID_REQ_STATIC, TRACE_ID_PREFER_ODD]

/-- With `TRACE_ID_PREFER_ODD` and the preferred id 0: the lowest free odd id
when there is one, the tail scan otherwise. -/
theorem alloc_new_id_prefer_odd (k : trace_id_consts) (id_map : coresight_trace_id_map) :
    (∃ id, lowest_free_odd k id_map.used_ids id ∧
      coresight_trace_id_alloc_new_id k id_map 0 TRACE_ID_PREFER_ODD
        = some (trace_id_allocated id id_map)) ∨
    ((∀ j, j < k.CORESIGHT_TRACE_ID_RES_TOP → j % 2 = 1 →
        test_bit j id_map.used_ids = true) ∧
      coresight_trace_id_alloc_new_id k id_map 0 TRACE_ID_PREFER_ODD
        = some (alloc_next_free k id_map)) := by
  have hv : IS_VALID_CS_TRACE_ID k 0 = false := by simp [IS_VALID_CS_TRACE_ID]
  obtain ⟨r, hr, hcase⟩ := coresight_trace_id_find_odd_id_spec k id_map
  rcases hcase with ⟨h0, hall⟩ | hlow
  · right
    subst h0
    refine ⟨hall, ?_⟩
    simp [coresight_trace_id_alloc_new_id, hv, TRACE_ID_PREFER_ODD, hr]
  · left
    have hne : r ≠ 0 := by
      intro h0
      have := hlow.2.1
      omega
    refine ⟨r, hlow, ?_⟩
    simp [coresight_trace_id_alloc_new_id, hv, TRACE_ID_PREFER_ODD, hr, hne]

/-- Every run of the allocation core ends, and it either fails with `-EINVAL` or
`-EBUSY` and leaves the map as it was, or returns an id of `[1, limit)` whose
bit was clear and sets that bit. -/
theorem alloc_new_id_outcome (k : trace_id_consts) (id_map : coresight_trace_id_map)
    (preferred_id : Int) (flags : Nat) :
    ∃ r id_map1, coresight_trace_id_alloc_new_id k id_map preferred_id flags
        = some (r, id_map1) ∧
      ((id_map1 = id_map ∧ (r = -EINVAL ∨ r = -EBUSY)) ∨
        ∃ id : Nat, r = (id : Int) ∧ 1 ≤ id ∧ id < k.CORESIGHT_TRACE_ID_RES_TOP ∧
          test_bit id id_map.used_ids = false ∧
          id_map1 = { id_map with used_ids := set_bit id id_map.used_ids }) := by
  have tail : ∃ r id_map1, alloc_next_free k id_map = (r, id_map1) ∧
      ((id_map1 = id_map ∧ (r = -EINVAL ∨ r = -EBUSY)) ∨
        ∃ id : Nat, r = (id : Int) ∧ 1 ≤ id ∧ id < k.CORESIGHT_TRACE_ID_RES_TOP ∧
          test_bit id id_map.used_ids = false ∧
          id_map1 = { id_map with used_ids := set_bit id id_map.used_ids }) := by
    rcases alloc_next_free_spec k id_map with ⟨_, h⟩ | ⟨id, hl, h⟩
    · exact ⟨_, _, h, Or.inl ⟨rfl, Or.inl rfl⟩⟩
    · exact ⟨_, _, h, Or.inr ⟨id, rfl, hl.1, hl.2.1, hl.2.2.1, rfl⟩⟩
  obtain ⟨rt, mt, htail, houtt⟩ := tail
  by_cases hv : IS_VALID_CS_TRACE_ID k preferred_id = true
  · have hvr := (IS_VALID_CS_TRACE_ID_iff k preferred_id).1 hv
    cases hb : test_bit preferred_id.toNat id_map.used_ids
    · refine ⟨_, _, alloc_new_id_preferred_free k id_map preferred_id flags hv hb,
        Or.inr ⟨preferred_id.toNat, ?_, ?_, ?_, hb, rfl⟩⟩
      · omega
      · omega
      · omega
    · by_cases hst : flags &&& TRACE_ID_REQ_STATIC ≠ 0
      · refine ⟨-EBUSY, id_map, ?_, Or.inl ⟨rfl, Or.inr rfl⟩⟩
        simp only [coresight_trace_id_alloc_new_id, hv, if_true, hb, Bool.not_true,
          Bool.false_eq_true, if_false, hst, ne_eq, not_false_eq_true]
      · refine ⟨rt, mt, ?_, houtt⟩
        simp only [coresight_trace_id_alloc_new_id, hv, if_true, hb, Bool.not_true,
          Bool.false_eq_true, if_false, hst, htail]
  · have hv2 : IS_VALID_CS_TRACE_ID k preferred_id = false := by simpa using hv
    by_cases hodd : flags &&& TRACE_ID_PREFER_ODD ≠ 0
    · obtain ⟨r, hr, hcase⟩ := coresight_trace_id_find_odd_id_spec k id_map
      by_cases hr0 : r = 0
      · refine ⟨rt, mt, ?_, houtt⟩
        subst hr0
        simp [coresight_trace_id_alloc_new_id, hv2, hodd, hr, htail]
      · have hlow : lowest_free_odd k id_map.used_ids r := by
          rcases hcase with ⟨h0, _⟩ | hlow
          · exact absurd h0 hr0
          · exact hlow
        refine ⟨(r : Int), _, ?_, Or.inr ⟨r, rfl, by omega, hlow.1, hlow.2.2.1, rfl⟩⟩
        simp [coresight_trace_id_alloc_new_id, hv2, hodd, hr, hr0, trace_id_allocated]
    · by_cases hst : flags &&& TRACE_ID_REQ_STATIC ≠ 0
      · refine ⟨-EINVAL, id_map, ?_, Or.inl ⟨rfl, Or.inl rfl⟩⟩
        simp [coresight_trace_id_alloc_new_id, hv2, hodd, hst]
      · refine ⟨rt, mt, ?_, houtt⟩
        simp [coresight_trace_id_alloc_new_id, hv2, hodd, hst, htail]

theorem read_cpu_map_set_self (cpu : Nat) (v : Int) (id_map : coresight_trace_id_map)
    (h : cpu < id_map.cpu_map.length) :
    _coresight_trace_id_read_cpu_id cpu (cpu_map_set cpu v id_map) = v := by
  simp [_coresight_trace_id_read_cpu_id, cpu_map_set, List.getD_eq_getElem?_getD,
    List.getElem?_set, h]

theorem read_cpu_map_set_of_ne (cpu c : Nat) (v : Int) (id_map : coresight_trace_id_map)
    (h : c ≠ cpu) :
    _coresight_trace_id_read_cpu_id c (cpu_map_set cpu v id_map)
      = _coresight_trace_id_read_cpu_id c id_map := by
  have h2 : ¬ cpu = c := fun e => h e.symm
  simp [_coresight_trace_id_read_cpu_id, cpu_map_set, List.getD_eq_getElem?_getD,
    List.getElem?_set, h2]

/-- A CPU that has an id keeps it: the call returns it and changes nothing. -/
theorem get_cpu_id_bound (k : trace_id_consts) (cpu : Nat) (id_map : coresight_trace_id_map)
    (h : _coresight_trace_id_read_cpu_id cpu id_map ≠ 0) :
    _coresight_trace_id_get_cpu_id k cpu id_map
      = some (_coresight_trace_id_read_cpu_id cpu id_map, id_map) := by
  simp [_coresight_trace_id_get_cpu_id, h]

/-- For a CPU without an id, the call ends, and it either fails with `-EINVAL`
and leaves the map as it was, or allocates an id of `[1, limit)` whose bit was
clear, sets that bit and stores the id in the entry of the CPU. -/
theorem get_cpu_id_unbound_outcome (k : trace_id_consts) (cpu : Nat)
    (id_map : coresight_trace_id_map) (h : _coresight_trace_id_read_cpu_id cpu id_map = 0) :
    ∃ r id_map1, _coresight_trace_id_get_cpu_id k cpu id_map = some (r, id_map1) ∧
      ((id_map1 = id_map ∧ r = -EINVAL ∧ all_in_use k id_map.used_ids) ∨
        ∃ id : Nat, r = (id : Int) ∧ 1 ≤ id ∧ id < k.CORESIGHT_TRACE_ID_RES_TOP ∧
          test_bit id id_map.used_ids = false ∧
          id_map1 = cpu_map_set cpu (id : Int)
            { id_map with used_ids := set_bit id id_map.used_ids } ∧
          ((IS_VALID_CS_TRACE_ID k (k.CORESIGHT_LEGACY_CPU_TRACE_ID cpu) = true ∧
              test_bit (k.CORESIGHT_LEGACY_CPU_TRACE_ID cpu).toNat id_map.used_ids = false) →
            (id : Int) = k.CORESIGHT_LEGACY_CPU_TRACE_ID cpu) ∧
          (¬ (IS_VALID_CS_TRACE_ID k (k.CORESIGHT_LEGACY_CPU_TRACE_ID cpu) = true ∧
              test_bit (k.CORESIGHT_LEGACY_CPU_TRACE_ID cpu).toNat id_map.used_ids = false) →
            lowest_free k id_map.used_ids id)) := by
  by_cases hp : IS_VALID_CS_TRACE_ID k (k.CORESIGHT_LEGACY_CPU_TRACE_ID cpu) = true ∧
      test_bit (k.CORESIGHT_LEGACY_CPU_TRACE_ID cpu).toNat id_map.used_ids = false
  · obtain ⟨hv, hc⟩ := hp
    have hvr := (IS_VALID_CS_TRACE_ID_iff k _).1 hv
    have hcast : (((k.CORESIGHT_LEGACY_CPU_TRACE_ID cpu).toNat : Nat) : Int)
        = k.CORESIGHT_LEGACY_CPU_TRACE_ID cpu := by omega
    refine ⟨_, _, ?_, Or.inr ⟨(k.CORESIGHT_LEGACY_CPU_TRACE_ID cpu).toNat, rfl, by omega,
      by omega, hc, rfl, fun _ => hcast, fun hn => absurd ⟨hv, hc⟩ hn⟩⟩
    simp only [_coresight_trace_id_get_cpu_id, h, ne_eq, not_true_eq_false, if_false,
      alloc_new_id_preferred_free k id_map _ TRACE_ID_ANY hv hc, trace_id_allocated, hcast, hv,
      Bool.not_true, Bool.false_eq_true]
  · have ha := alloc_new_id_any_fallback k id_map _ hp
    rcases alloc_next_free_spec k id_map with ⟨hfull, ht⟩ | ⟨id, hl, ht⟩
    · refine ⟨-EINVAL, id_map, ?_, Or.inl ⟨rfl, rfl, hfull⟩⟩
      simp only [_coresight_trace_id_get_cpu_id, h, ne_eq, not_true_eq_false, if_false, ha, ht,
        IS_VALID_CS_TRACE_ID_neg_EINVAL, Bool.not_false, if_true]
    · refine ⟨_, _, ?_, Or.inr ⟨id, rfl, hl.1, hl.2.1, hl.2.2.1, rfl, fun hy => absurd hy hp,
        fun _ => hl⟩⟩
      simp only [_coresight_trace_id_get_cpu_id, h, ne_eq, not_true_eq_false, if_false, ha, ht,
        trace_id_allocated, IS_VALID_CS_TRACE_ID_cast k id hl.1 hl.2.1, Bool.not_true,
        Bool.false_eq_true]

/-- Every allocating call that allocates afresh ends, and it either fails with
`-EINVAL` or `-EBUSY` and leaves the map as it was, or returns an id of
`[1, limit)` whose bit was clear and is set afterwards. -/
theorem run_alloc_outcome (k : trace_id_consts) (id_map : coresight_trace_id_map)
    (c : alloc_call) (hf : allocates_afresh id_map c) :
    ∃ r id_map1, run_alloc k id_map c = some (r, id_map1) ∧
      ((id_map1 = id_map ∧ (r = -EINVAL ∨ r = -EBUSY)) ∨
        ∃ id : Nat, r = (id : Int) ∧ 1 ≤ id ∧ id < k.CORESIGHT_TRACE_ID_RES_TOP ∧
          test_bit id id_map.used_ids = false ∧
          id_map1.used_ids = set_bit id id_map.used_ids) := by
  cases c with
  | get_system_id =>
    obtain ⟨r, m1, h, hout⟩ := alloc_new_id_outcome k id_map 0 TRACE_ID_PREFER_ODD
    refine ⟨r, m1, h, ?_⟩
    rcases hout with hfail | ⟨id, h1, h2, h3, h4, h5⟩
    · exact Or.inl hfail
    · exact Or.inr ⟨id, h1, h2, h3, h4, by rw [h5]⟩
  | get_static_system_id trace_id =>
    obtain ⟨r, m1, h, hout⟩ := alloc_new_id_outcome k id_map trace_id TRACE_ID_REQ_STATIC
    refine ⟨r, m1, h, ?_⟩
    rcases hout with hfail | ⟨id, h1, h2, h3, h4, h5⟩
    · exact Or.inl hfail
    · exact Or.inr ⟨id, h1, h2, h3, h4, by rw [h5]⟩
  | get_cpu_id cpu =>
    obtain ⟨r, m1, h, hout⟩ := get_cpu_id_unbound_outcome k cpu id_map hf
    refine ⟨r, m1, h, ?_⟩
    rcases hout with ⟨e1, e2, _⟩ | ⟨id, h1, h2, h3, h4, h5, _, _⟩
    · exact Or.inl ⟨e1, Or.inl e2⟩
    · exact Or.inr ⟨id, h1, h2, h3, h4, by rw [h5]; rfl⟩

/-- On a map whose range is full, `get_system_id` fails with `-EINVAL` and
changes nothing. -/
theorem get_system_id_exhausted (k : trace_id_consts) (id_map : coresight_trace_id_map)
    (hfull : all_in_use k id_map.used_ids) :
    coresight_trace_id_get_system_id k id_map = some (-EINVAL, id_map) := by
  unfold coresight_trace_id_get_system_id coresight_trace_id_map_get_system_id
  have htail : alloc_next_free k id_map = (-EINVAL, id_map) := by
    rcases alloc_next_free_spec k id_map with ⟨_, h⟩ | ⟨id, hlow, _⟩
    · exact h
    · have := hfull id hlow.1 hlow.2.1
      rw [hlow.2.2.1] at this
      exact Bool.noConfusion this
  rcases alloc_new_id_prefer_odd k id_map with ⟨id, hlow, _⟩ | ⟨_, h⟩
  · have hid : 1 ≤ id := by
      have := hlow.2.1
      omega
    have := hfull id hid hlow.1
    rw [hlow.2.2.1] at this
    exact Bool.noConfusion this
  · rw [h, htail]

/-- With an invalid id, `get_static_system_id` fails with `-EINVAL` and changes
nothing. -/
theorem get_static_system_id_invalid (k : trace_id_consts) (id_map : coresight_trace_id_map)
    (trace_id : Int) (hv : IS_VALID_CS_TRACE_ID k trace_id = false) :
    coresight_trace_id_get_static_system_id k id_map trace_id = some (-EINVAL, id_map) := by
  unfold coresight_trace_id_get_static_system_id coresight_trace_id_map_get_system_id
  exact alloc_new_id_static_invalid k id_map trace_id hv

/-- Releasing a valid id clears its bit and touches nothing else. -/
theorem coresight_trace_id_free_valid (k : trace_id_consts) (id : Int)
    (id_map : coresight_trace_id_map) (hv : IS_VALID_CS_TRACE_ID k id = true) :
    coresight_trace_id_free k id id_map
      = { id_map with used_ids := clear_bit id.toNat id_map.used_ids } := by
  cases hb : test_bit id.toNat id_map.used_ids
  · have hc : clear_bit id.toNat id_map.used_ids = id_map.used_ids := by
      unfold test_bit at hb
      simp [clear_bit, hb]
    simp [coresight_trace_id_free, hv, hb, hc]
  · simp [coresight_trace_id_free, hv, hb]

/-- Releasing an invalid id changes nothing. -/
theorem coresight_trace_id_free_invalid (k : trace_id_consts) (id : Int)
    (id_map : coresight_trace_id_map) (hv : IS_VALID_CS_TRACE_ID k id = false) :
    coresight_trace_id_free k id id_map = id_map := by
  simp [coresight_trace_id_free, hv]

/-- A CPU whose entry is not 0 is a CPU of the table. -/
theorem cpu_valid_of_read_ne_zero (cpu : Nat) (id_map : coresight_trace_id_map)
    (h : _coresight_trace_id_read_cpu_id cpu id_map ≠ 0) : cpu < id_map.cpu_map.length := by
  by_contra hlt
  apply h
  simp only [_coresight_trace_id_read_cpu_id, List.getD_eq_getElem?_getD]
  rw [List.getElem?_eq_none (by omega)]
  rfl

/-! ## Lemmas on sequences of calls and on the session counter -/

/-- Every public operation ends. -/
theorem api_step_total (k : trace_id_consts) (id_map : coresight_trace_id_map) (c : api_call) :
    ∃ id_map1, api_step k id_map c = some id_map1 := by
  cases c with
  | get_cpu_id cpu =>
    by_cases hb : _coresight_trace_id_read_cpu_id cpu id_map = 0
    · obtain ⟨r, m1, h, _⟩ := get_cpu_id_unbound_outcome k cpu id_map hb
      exact ⟨m1, by simp [api_step, h]⟩
    · exact ⟨id_map, by simp [api_step, get_cpu_id_bound k cpu id_map hb]⟩
  | put_cpu_id cpu => exact ⟨_, rfl⟩
  | get_system_id =>
    obtain ⟨r, m1, h, _⟩ := alloc_new_id_outcome k id_map 0 TRACE_ID_PREFER_ODD
    exact ⟨m1, by simp [api_step, coresight_trace_id_get_system_id,
      coresight_trace_id_map_get_system_id, h]⟩
  | get_static_system_id trace_id =>
    obtain ⟨r, m1, h, _⟩ := alloc_new_id_outcome k id_map trace_id TRACE_ID_REQ_STATIC
    exact ⟨m1, by simp [api_step, coresight_trace_id_get_static_system_id,
      coresight_trace_id_map_get_system_id, h]⟩
  | put_system_id id => exact ⟨_, rfl⟩
  | perf_start => exact ⟨_, rfl⟩
  | perf_stop => exact ⟨_, rfl⟩

/-- Every sequence of public operations ends. -/
theorem api_run_total (k : trace_id_consts) (cs : List api_call) :
    ∀ id_map, ∃ id_map1, api_run k id_map cs = some id_map1 := by
  induction cs with
  | nil => exact fun id_map => ⟨id_map, rfl⟩
  | cons c cs ih =>
    intro id_map
    obtain ⟨m1, h1⟩ := api_step_total k id_map c
    obtain ⟨m2, h2⟩ := ih m1
    exact ⟨m2, by simp [api_run, h1, h2]⟩

theorem api_run_append (k : trace_id_consts) (cs ds : List api_call) :
    ∀ id_map, api_run k id_map (cs ++ ds)
      = (api_run k id_map cs).bind (fun id_map1 => api_run k id_map1 ds) := by
  induction cs with
  | nil => exact fun id_map => rfl
  | cons c cs ih =>
    intro id_map
    simp only [List.cons_append, api_run]
    cases api_step k id_map c with
    | none => rfl
    | some m1 => exact ih m1

theorem alloc_next_free_with_counter (k : trace_id_consts) (c : Int)
    (id_map : coresight_trace_id_map) :
    alloc_next_free k (with_counter c id_map)
      = ((alloc_next_free k id_map).1, with_counter c (alloc_next_free k id_map).2) := by
  simp only [alloc_next_free, with_counter]
  split <;> rfl

/-- The allocation core does not look at the session counter and leaves it. -/
theorem alloc_new_id_with_counter (k : trace_id_consts) (c : Int)
    (id_map : coresight_trace_id_map) (preferred_id : Int) (flags : Nat) :
    coresight_trace_id_alloc_new_id k (with_counter c id_map) preferred_id flags
      = (coresight_trace_id_alloc_new_id k id_map preferred_id flags).map
          (fun p => (p.1, with_counter c p.2)) := by
  have hodd : coresight_trace_id_find_odd_id k (with_counter c id_map)
      = coresight_trace_id_find_odd_id k id_map := rfl
  have hused : (with_counter c id_map).used_ids = id_map.used_ids := rfl
  simp only [coresight_trace_id_alloc_new_id, hodd, hused, alloc_next_free_with_counter]
  split
  · split
    · rfl
    · split <;> rfl
  · split
    · cases coresight_trace_id_find_odd_id k id_map with
      | none => rfl
      | some id =>
        simp only
        split <;> rfl
    · split <;> rfl

theorem coresight_trace_id_free_with_counter (k : trace_id_consts) (c : Int)
    (id_map : coresight_trace_id_map) (id : Int) :
    coresight_trace_id_free k id (with_counter c id_map)
      = with_counter c (coresight_trace_id_free k id id_map) := by
  cases hv : IS_VALID_CS_TRACE_ID k id
  · rw [coresight_trace_id_free_invalid k id _ hv, coresight_trace_id_free_invalid k id _ hv]
  · rw [coresight_trace_id_free_valid k id _ hv, coresight_trace_id_free_valid k id _ hv]
    rfl

/-- A call that is no session call does not look at the session counter and
leaves it. -/
theorem api_step_with_counter (k : trace_id_consts) (c : Int)
    (id_map : coresight_trace_id_map) (op : api_call) (hop : is_session op = false) :
    api_step k (with_counter c id_map) op = (api_step k id_map op).map (with_counter c) := by
  cases op with
  | get_cpu_id cpu =>
    have hread : _coresight_trace_id_read_cpu_id cpu (with_counter c id_map)
        = _coresight_trace_id_read_cpu_id cpu id_map := rfl
    simp only [api_step, _coresight_trace_id_get_cpu_id, hread, alloc_new_id_with_counter]
    split
    · rfl
    · cases coresight_trace_id_alloc_new_id k id_map
          (k.CORESIGHT_LEGACY_CPU_TRACE_ID cpu) TRACE_ID_ANY with
      | none => rfl
      | some p =>
        simp only [Option.map_some']
        split <;> rfl
  | put_cpu_id cpu =>
    have hread : _coresight_trace_id_read_cpu_id cpu (with_counter c id_map)
        = _coresight_trace_id_read_cpu_id cpu id_map := rfl
    simp only [api_step, _coresight_trace_id_put_cpu_id, hread, Option.map_some',
      Option.some.injEq, coresight_trace_id_free_with_counter]
    split <;> rfl
  | get_system_id =>
    simp only [api_step, coresight_trace_id_get_system_id,
      coresight_trace_id_map_get_system_id, alloc_new_id_with_counter, Option.map_map]
    rfl
  | get_static_system_id trace_id =>
    simp only [api_step, coresight_trace_id_get_static_system_id,
      coresight_trace_id_map_get_system_id, alloc_new_id_with_counter, Option.map_map]
    rfl
  | put_system_id id =>
    simp only [api_step, coresight_trace_id_put_system_id,
      coresight_trace_id_map_put_system_id, coresight_trace_id_free_with_counter,
      Option.map_some']
  | perf_start => simp [is_session] at hop
  | perf_stop => simp [is_session] at hop

/-- A sequence without session calls does not look at the session counter and
leaves it. -/
theorem api_run_with_counter (k : trace_id_consts) (c : Int) (cs : List api_call)
    (hcs : ∀ op ∈ cs, is_session op = false) :
    ∀ id_map, api_run k (with_counter c id_map) cs
      = (api_run k id_map cs).map (with_counter c) := by
  induction cs with
  | nil => exact fun id_map => rfl
  | cons op cs ih =>
    intro id_map
    have hop := hcs op (List.mem_cons_self op cs)
    have ih2 := ih (fun o ho => hcs o (List.mem_cons_of_mem op ho))
    simp only [api_run, api_step_with_counter k c id_map op hop]
    cases api_step k id_map op with
    | none => rfl
    | some m1 => exact ih2 m1

theorem with_counter_self (id_map : coresight_trace_id_map) :
    with_counter id_map.perf_cs_etm_session_active id_map = id_map := rfl

theorem api_run_append_some (k : trace_id_consts) (cs ds : List api_call)
    (id_map id_map1 id_map2 : coresight_trace_id_map)
    (h1 : api_run k id_map cs = some id_map1) (h2 : api_run k id_map1 ds = some id_map2) :
    api_run k id_map (cs ++ ds) = some id_map2 := by
  rw [api_run_append, h1]
  exact h2

/-- A sequence without session calls, run on the map with another counter, gives
the same map with that counter. -/
theorem api_run_with_counter_some (k : trace_id_consts) (c : Int) (cs : List api_call)
    (hcs : ∀ op ∈ cs, is_session op = false) (id_map id_map1 : coresight_trace_id_map)
    (h : api_run k id_map cs = some id_map1) :
    api_run k (with_counter c id_map) cs = some (with_counter c id_map1) := by
  rw [api_run_with_counter k c cs hcs id_map, h]
  rfl

theorem api_run_perf_start (k : trace_id_consts) (c : Int) (id_map : coresight_trace_id_map) :
    api_run k (with_counter c id_map) [api_call.perf_start]
      = some (with_counter (c + 1) id_map) := rfl

theorem api_run_perf_stop_keep (k : trace_id_consts) (c : Int)
    (id_map : coresight_trace_id_map) (hc : c - 1 ≠ 0) :
    api_run k (with_counter c id_map) [api_call.perf_stop]
      = some (with_counter (c - 1) id_map) := by
  simp [api_run, api_step, coresight_trace_id_perf_stop, atomic_dec_return, with_counter, hc]

theorem api_run_perf_stop_release (k : trace_id_consts) (id_map : coresight_trace_id_map) :
    api_run k (with_counter 1 id_map) [api_call.perf_stop]
      = some (coresight_trace_id_release_all k (with_counter 0 id_map)) := by
  simp [api_run, api_step, coresight_trace_id_perf_stop, atomic_dec_return, with_counter]

/-- The map after `n` starts: only the counter moved, by `n`. -/
theorem api_run_starts (k : trace_id_consts) (n : Nat) :
    ∀ (c : Int) (id_map : coresight_trace_id_map),
      api_run k (with_counter c id_map) (List.replicate n api_call.perf_start)
        = some (with_counter (c + n) id_map) := by
  induction n with
  | zero =>
    intro c id_map
    simp [api_run]
  | succ n ih =>
    intro c id_map
    have h1 : api_step k (with_counter c id_map) api_call.perf_start
        = some (with_counter (c + 1) id_map) := rfl
    simp only [List.replicate_succ, api_run, h1, ih (c + 1) id_map]
    congr 2
    push_cast
    ring

/-- The map after `j` stops that never bring the counter to 0: only the counter
moved, by `j`. -/
theorem api_run_stops (k : trace_id_consts) (j : Nat) :
    ∀ (c : Int) (id_map : coresight_trace_id_map), (j : Int) < c →
      api_run k (with_counter c id_map) (List.replicate j api_call.perf_stop)
        = some (with_counter (c - j) id_map) := by
  induction j with
  | zero =>
    intro c id_map _
    simp [api_run]
  | succ j ih =>
    intro c id_map hlt
    have hc : c - 1 ≠ 0 := by push_cast at hlt; omega
    have h1 : api_step k (with_counter c id_map) api_call.perf_stop
        = some (with_counter (c - 1) id_map) := by
      simp [api_step, coresight_trace_id_perf_stop, atomic_dec_return, with_counter, hc]
    have hlt2 : (j : Int) < c - 1 := by push_cast at hlt; omega
    simp only [List.replicate_succ, api_run, h1, ih (c - 1) id_map hlt2]
    congr 2
    push_cast
    ring

/-! ## Lemmas on the invariants -/

theorem read_cpu_map_set (cpu c : Nat) (v : Int) (id_map : coresight_trace_id_map) :
    _coresight_trace_id_read_cpu_id c (cpu_map_set cpu v id_map)
      = if c = cpu ∧ cpu < id_map.cpu_map.length then v
        else _coresight_trace_id_read_cpu_id c id_map := by
  by_cases hc : c = cpu
  · subst hc
    by_cases hl : c < id_map.cpu_map.length
    · simp [hl, read_cpu_map_set_self c v id_map hl]
    · have hn : id_map.cpu_map[c]? = none := List.getElem?_eq_none (by omega)
      simp [hl, _coresight_trace_id_read_cpu_id, cpu_map_set, List.getD_eq_getElem?_getD,
        List.getElem?_set, hn]
  · simp [hc, read_cpu_map_set_of_ne cpu c v id_map hc]

theorem read_release_all (k : trace_id_consts) (cpu : Nat) (id_map : coresight_trace_id_map) :
    _coresight_trace_id_read_cpu_id cpu (coresight_trace_id_release_all k id_map) = 0 := by
  simp only [_coresight_trace_id_read_cpu_id, coresight_trace_id_release_all,
    List.getD_eq_getElem?_getD, List.getElem?_map]
  cases id_map.cpu_map[cpu]? <;> rfl

theorem read_id_map_init (n cpu : Nat) :
    _coresight_trace_id_read_cpu_id cpu (id_map_init n) = 0 := by
  simp only [_coresight_trace_id_read_cpu_id, id_map_init, List.getD_eq_getElem?_getD]
  by_cases h : cpu < n
  · simp [List.getElem?_replicate, h]
  · simp [List.getElem?_replicate, h]

theorem test_bit_zero_bitmap (j : Nat) : test_bit j 0 = false := by
  simp [test_bit]

theorem option_map_snd_some {α β : Type} (x : Option (α × β)) (b : β)
    (h : x.map Prod.snd = some b) : ∃ a, x = some (a, b) := by
  cases x with
  | none => simp at h
  | some p =>
    obtain ⟨a, b2⟩ := p
    simp only [Option.map_some', Option.some.injEq] at h
    subst h
    exact ⟨a, rfl⟩

/-- What a `get_cpu_id` can do to a map: nothing, or set the bit of a free id of
`[1, limit)` and store that id in the entry of the CPU. -/
theorem get_cpu_id_shape (k : trace_id_consts) (cpu : Nat)
    (id_map id_map1 : coresight_trace_id_map) (r : Int)
    (h : _coresight_trace_id_get_cpu_id k cpu id_map = some (r, id_map1)) :
    id_map1 = id_map ∨
      ∃ id : Nat, r = (id : Int) ∧ 1 ≤ id ∧ id < k.CORESIGHT_TRACE_ID_RES_TOP ∧
        test_bit id id_map.used_ids = false ∧
        _coresight_trace_id_read_cpu_id cpu id_map = 0 ∧
        id_map1 = cpu_map_set cpu (id : Int)
          { id_map with used_ids := set_bit id id_map.used_ids } := by
  by_cases hb : _coresight_trace_id_read_cpu_id cpu id_map = 0
  · obtain ⟨r2, m2, h2, hout⟩ := get_cpu_id_unbound_outcome k cpu id_map hb
    rw [h] at h2
    simp only [Option.some.injEq, Prod.mk.injEq] at h2
    obtain ⟨e1, e2⟩ := h2
    subst e1 e2
    rcases hout with ⟨e, _, _⟩ | ⟨n, h1, h2, h3, h4, h5, _, _⟩
    · exact Or.inl e
    · exact Or.inr ⟨n, h1, h2, h3, h4, hb, h5⟩
  · rw [get_cpu_id_bound k cpu id_map hb] at h
    simp only [Option.some.injEq, Prod.mk.injEq] at h
    exact Or.inl h.2.symm

/-- What a system allocation can do to a map: nothing, or set the bit of a free
id of `[1, limit)`. -/
theorem alloc_new_id_shape (k : trace_id_consts) (id_map id_map1 : coresight_trace_id_map)
    (preferred_id : Int) (flags : Nat) (r : Int)
    (h : coresight_trace_id_alloc_new_id k id_map preferred_id flags = some (r, id_map1)) :
    id_map1 = id_map ∨
      ∃ id : Nat, r = (id : Int) ∧ 1 ≤ id ∧ id < k.CORESIGHT_TRACE_ID_RES_TOP ∧
        test_bit id id_map.used_ids = false ∧
        id_map1 = { id_map with used_ids := set_bit id id_map.used_ids } := by
  obtain ⟨r2, m2, h2, hout⟩ := alloc_new_id_outcome k id_map preferred_id flags
  rw [h] at h2
  simp only [Option.some.injEq, Prod.mk.injEq] at h2
  obtain ⟨e1, e2⟩ := h2
  subst e1 e2
  rcases hout with ⟨e, _⟩ | hs
  · exact Or.inl e
  · exact Or.inr hs

theorem ids_in_range_set_bit (k : trace_id_consts) (id_map : coresight_trace_id_map) (n : Nat)
    (h : ids_in_range k id_map) (h1 : 1 ≤ n) (h2 : n < k.CORESIGHT_TRACE_ID_RES_TOP) :
    ids_in_range k { id_map with used_ids := set_bit n id_map.used_ids } := by
  refine ⟨?_, h.2⟩
  intro j hj
  simp only [test_bit_set_bit, Bool.or_eq_true, decide_eq_true_eq] at hj
  rcases hj with hj | hj
  · subst hj
    exact ⟨h1, h2⟩
  · exact h.1 j hj

theorem ids_in_range_cpu_map_set (k : trace_id_consts) (id_map : coresight_trace_id_map)
    (cpu : Nat) (v : Int) (h : ids_in_range k id_map)
    (hv : v = 0 ∨ IS_VALID_CS_TRACE_ID k v = true) :
    ids_in_range k (cpu_map_set cpu v id_map) := by
  refine ⟨h.1, ?_⟩
  intro c hc
  rw [read_cpu_map_set] at hc ⊢
  split
  · rename_i hcond
    rw [if_pos hcond] at hc
    rcases hv with hv | hv
    · exact absurd hv hc
    · exact hv
  · rename_i hcond
    rw [if_neg hcond] at hc
    exact h.2 c hc

theorem ids_in_range_free (k : trace_id_consts) (id_map : coresight_trace_id_map) (id : Int)
    (h : ids_in_range k id_map) : ids_in_range k (coresight_trace_id_free k id id_map) := by
  cases hv : IS_VALID_CS_TRACE_ID k id
  · rw [coresight_trace_id_free_invalid k id id_map hv]
    exact h
  · rw [coresight_trace_id_free_valid k id id_map hv]
    refine ⟨?_, h.2⟩
    intro j hj
    simp only [test_bit_clear_bit, Bool.and_eq_true] at hj
    exact h.1 j hj.2

theorem ids_in_range_release_all (k : trace_id_consts) (id_map : coresight_trace_id_map)
    (h : ids_in_range k id_map) : ids_in_range k (coresight_trace_id_release_all k id_map) := by
  refine ⟨?_, ?_⟩
  · intro j hj
    simp only [coresight_trace_id_release_all, test_bit_bitmap_zero, Bool.and_eq_true] at hj
    exact h.1 j hj.2
  · intro c hc
    exact absurd (read_release_all k c id_map) hc

/-- Every public operation keeps the set bits and the entries in `[1, limit)`. -/
theorem ids_in_range_step (k : trace_id_consts) (id_map id_map1 : coresight_trace_id_map)
    (op : api_call) (h : ids_in_range k id_map) (hs : api_step k id_map op = some id_map1) :
    ids_in_range k id_map1 := by
  cases op with
  | get_cpu_id cpu =>
    obtain ⟨r, hr⟩ := option_map_snd_some _ _ hs
    rcases get_cpu_id_shape k cpu id_map id_map1 r hr with e | ⟨n, _, h1, h2, _, _, e⟩
    · rw [e]
      exact h
    · rw [e]
      exact ids_in_range_cpu_map_set k _ cpu _ (ids_in_range_set_bit k id_map n h h1 h2)
        (Or.inr (IS_VALID_CS_TRACE_ID_cast k n h1 h2))
  | put_cpu_id cpu =>
    simp only [api_step, Option.some.injEq] at hs
    subst hs
    unfold _coresight_trace_id_put_cpu_id
    simp only
    split
    · exact h
    · exact ids_in_range_cpu_map_set k _ cpu 0 (ids_in_range_free k id_map _ h) (Or.inl rfl)
  | get_system_id =>
    obtain ⟨r, hr⟩ := option_map_snd_some _ _ hs
    rcases alloc_new_id_shape k id_map id_map1 0 TRACE_ID_PREFER_ODD r hr
      with e | ⟨n, _, h1, h2, _, e⟩
    · rw [e]
      exact h
    · rw [e]
      exact ids_in_range_set_bit k id_map n h h1 h2
  | get_static_system_id trace_id =>
    obtain ⟨r, hr⟩ := option_map_snd_some _ _ hs
    rcases alloc_new_id_shape k id_map id_map1 trace_id TRACE_ID_REQ_STATIC r hr
      with e | ⟨n, _, h1, h2, _, e⟩
    · rw [e]
      exact h
    · rw [e]
      exact ids_in_range_set_bit k id_map n h h1 h2
  | put_system_id id =>
    simp only [api_step, Option.some.injEq] at hs
    subst hs
    exact ids_in_range_free k id_map id h
  | perf_start =>
    simp only [api_step, Option.some.injEq] at hs
    subst hs
    exact h
  | perf_stop =>
    simp only [api_step, Option.some.injEq] at hs
    subst hs
    unfold coresight_trace_id_perf_stop
    simp only
    split
    · exact ids_in_range_release_all k _ h
    · exact h

theorem ids_in_range_run (k : trace_id_consts) (cs : List api_call) :
    ∀ id_map id_map1, ids_in_range k id_map → api_run k id_map cs = some id_map1 →
      ids_in_range k id_map1 := by
  induction cs with
  | nil =>
    intro m m1 h hr
    simp only [api_run, Option.some.injEq] at hr
    subst hr
    exact h
  | cons c cs ih =>
    intro m m1 h hr
    obtain ⟨m2, h2⟩ := api_step_total k m c
    simp only [api_run, h2] at hr
    exact ih m2 m1 (ids_in_range_step k m m2 c h h2) hr

theorem ids_in_range_init (k : trace_id_consts) (n : Nat) : ids_in_range k (id_map_init n) := by
  refine ⟨?_, ?_⟩
  · intro j hj
    have : test_bit j (id_map_init n).used_ids = false := test_bit_zero_bitmap j
    rw [this] at hj
    exact Bool.noConfusion hj
  · intro c hc
    exact absurd (read_id_map_init n c) hc

theorem read_mem_of_ne_zero (cpu : Nat) (id_map : coresight_trace_id_map)
    (h : _coresight_trace_id_read_cpu_id cpu id_map ≠ 0) :
    _coresight_trace_id_read_cpu_id cpu id_map ∈ id_map.cpu_map := by
  have hlen := cpu_valid_of_read_ne_zero cpu id_map h
  have he : _coresight_trace_id_read_cpu_id cpu id_map = id_map.cpu_map[cpu] := by
    simp [_coresight_trace_id_read_cpu_id, List.getD_eq_getElem?_getD,
      List.getElem?_eq_getElem hlen]
  rw [he]
  exact List.getElem_mem hlen

theorem put_respects_cpus_put_system_id (id_map : coresight_trace_id_map) (id : Int)
    (h : put_respects_cpus id_map (api_call.put_system_id id) = true) :
    ∀ c, _coresight_trace_id_read_cpu_id c id_map ≠ 0 →
      _coresight_trace_id_read_cpu_id c id_map ≠ id := by
  intro c hc
  simp only [put_respects_cpus, List.all_eq_true, Bool.or_eq_true, beq_iff_eq, bne_iff_ne] at h
  rcases h _ (read_mem_of_ne_zero c id_map hc) with h0 | hne
  · exact absurd h0 hc
  · exact hne

theorem owned_by_cpus_set_bit (id_map : coresight_trace_id_map) (n : Nat)
    (h : owned_by_cpus id_map) :
    owned_by_cpus { id_map with used_ids := set_bit n id_map.used_ids } := by
  refine ⟨?_, h.2⟩
  intro c hc
  have := h.1 c hc
  show test_bit (_coresight_trace_id_read_cpu_id c id_map).toNat
    (set_bit n id_map.used_ids) = true
  rw [test_bit_set_bit]
  simp only [Bool.or_eq_true, decide_eq_true_eq]
  exact Or.inr this

/-- Storing in the entry of a CPU an id whose bit is set and that no CPU holds
keeps the ownership. -/
theorem owned_by_cpus_cpu_map_set_new (id_map : coresight_trace_id_map) (cpu : Nat) (v : Int)
    (h : owned_by_cpus id_map) (hbit : test_bit v.toNat id_map.used_ids = true)
    (hnew : ∀ c, _coresight_trace_id_read_cpu_id c id_map ≠ v) :
    owned_by_cpus (cpu_map_set cpu v id_map) := by
  refine ⟨?_, ?_⟩
  · intro c hc
    rw [read_cpu_map_set] at hc ⊢
    split
    · exact hbit
    · rename_i hcond
      rw [if_neg hcond] at hc
      exact h.1 c hc
  · intro c1 c2 hne hc1
    rw [read_cpu_map_set] at hc1
    rw [read_cpu_map_set, read_cpu_map_set]
    by_cases h1 : c1 = cpu ∧ cpu < id_map.cpu_map.length
    · have h2 : ¬ (c2 = cpu ∧ cpu < id_map.cpu_map.length) := by
        rintro ⟨e, _⟩
        exact hne (h1.1.trans e.symm)
      rw [if_pos h1, if_neg h2]
      exact fun e => hnew c2 e.symm
    · rw [if_neg h1] at hc1
      rw [if_neg h1]
      by_cases h2 : c2 = cpu ∧ cpu < id_map.cpu_map.length
      · rw [if_pos h2]
        exact hnew c1
      · rw [if_neg h2]
        exact h.2 c1 c2 hne hc1

/-- Resetting the entry of a CPU keeps the ownership. -/
theorem owned_by_cpus_cpu_map_set_zero (id_map : coresight_trace_id_map) (cpu : Nat)
    (h : owned_by_cpus id_map) : owned_by_cpus (cpu_map_set cpu 0 id_map) := by
  refine ⟨?_, ?_⟩
  · intro c hc
    rw [read_cpu_map_set] at hc ⊢
    by_cases h1 : c = cpu ∧ cpu < id_map.cpu_map.length
    · rw [if_pos h1] at hc
      exact absurd rfl hc
    · rw [if_neg h1] at hc
      rw [if_neg h1]
      exact h.1 c hc
  · intro c1 c2 hne hc1
    rw [read_cpu_map_set] at hc1
    rw [read_cpu_map_set, read_cpu_map_set]
    by_cases h1 : c1 = cpu ∧ cpu < id_map.cpu_map.length
    · rw [if_pos h1] at hc1
      exact absurd rfl hc1
    · rw [if_neg h1] at hc1
      rw [if_neg h1]
      by_cases h2 : c2 = cpu ∧ cpu < id_map.cpu_map.length
      · rw [if_pos h2]
        exact hc1
      · rw [if_neg h2]
        exact h.2 c1 c2 hne hc1

/-- Releasing an id that no CPU holds keeps the ownership. -/
theorem owned_by_cpus_free (k : trace_id_consts) (id_map : coresight_trace_id_map) (id : Int)
    (h : owned_by_cpus id_map)
    (hfor : ∀ c, _coresight_trace_id_read_cpu_id c id_map ≠ 0 →
      _coresight_trace_id_read_cpu_id c id_map ≠ id) :
    owned_by_cpus (coresight_trace_id_free k id id_map) := by
  cases hv : IS_VALID_CS_TRACE_ID k id
  · rw [coresight_trace_id_free_invalid k id id_map hv]
    exact h
  · rw [coresight_trace_id_free_valid k id id_map hv]
    have hvr := (IS_VALID_CS_TRACE_ID_iff k id).1 hv
    refine ⟨?_, h.2⟩
    intro c hc
    have hset := h.1 c hc
    have hne := hfor c hc
    show test_bit (_coresight_trace_id_read_cpu_id c id_map).toNat
      (clear_bit id.toNat id_map.used_ids) = true
    rw [test_bit_clear_bit]
    have hn : (_coresight_trace_id_read_cpu_id c id_map).toNat ≠ id.toNat := by
      intro e
      apply hne
      omega
    simp only [ne_eq, hn, not_false_eq_true, decide_True, Bool.true_and]
    exact hset

theorem cpu_map_set_free_comm (k : trace_id_consts) (id_map : coresight_trace_id_map)
    (cpu : Nat) (v id : Int) :
    cpu_map_set cpu v (coresight_trace_id_free k id id_map)
      = coresight_trace_id_free k id (cpu_map_set cpu v id_map) := by
  cases hv : IS_VALID_CS_TRACE_ID k id
  · rw [coresight_trace_id_free_invalid k id _ hv, coresight_trace_id_free_invalid k id _ hv]
  · rw [coresight_trace_id_free_valid k id _ hv, coresight_trace_id_free_valid k id _ hv]
    rfl

theorem owned_by_cpus_release_all (k : trace_id_consts) (id_map : coresight_trace_id_map) :
    owned_by_cpus (coresight_trace_id_release_all k id_map) := by
  refine ⟨?_, ?_⟩
  · intro c hc
    exact absurd (read_release_all k c id_map) hc
  · intro c1 _ _ hc1
    exact absurd (read_release_all k c1 id_map) hc1

theorem owned_by_cpus_put_cpu_id (k : trace_id_consts) (id_map : coresight_trace_id_map)
    (cpu : Nat) (h : owned_by_cpus id_map) :
    owned_by_cpus (_coresight_trace_id_put_cpu_id k cpu id_map) := by
  unfold _coresight_trace_id_put_cpu_id
  simp only
  split
  · exact h
  · rename_i hne
    rw [cpu_map_set_free_comm]
    apply owned_by_cpus_free k _ _ (owned_by_cpus_cpu_map_set_zero id_map cpu h)
    intro c hc
    rw [read_cpu_map_set] at hc ⊢
    by_cases h1 : c = cpu ∧ cpu < id_map.cpu_map.length
    · rw [if_pos h1] at hc
      exact absurd rfl hc
    · rw [if_neg h1] at hc
      rw [if_neg h1]
      have hlen := cpu_valid_of_read_ne_zero cpu id_map hne
      have hcne : cpu ≠ c := by
        intro e
        exact h1 ⟨e.symm, hlen⟩
      exact fun e => h.2 cpu c hcne hne e.symm

/-- Every public operation other than a `put_system_id` of an id that a CPU
holds keeps the ownership. -/
theorem owned_by_cpus_step (k : trace_id_consts) (id_map id_map1 : coresight_trace_id_map)
    (op : api_call) (h : owned_by_cpus id_map) (hput : put_respects_cpus id_map op = true)
    (hs : api_step k id_map op = some id_map1) : owned_by_cpus id_map1 := by
  cases op with
  | get_cpu_id cpu =>
    obtain ⟨r, hr⟩ := option_map_snd_some _ _ hs
    rcases get_cpu_id_shape k cpu id_map id_map1 r hr with e | ⟨n, _, h1, _, h4, _, e⟩
    · rw [e]
      exact h
    · rw [e]
      apply owned_by_cpus_cpu_map_set_new _ cpu _ (owned_by_cpus_set_bit id_map n h)
      · show test_bit _ (set_bit n id_map.used_ids) = true
        simp [test_bit_set_bit]
      · intro c e2
        have hc : _coresight_trace_id_read_cpu_id c id_map ≠ 0 := by
          have e3 : _coresight_trace_id_read_cpu_id c id_map = (n : Int) := e2
          rw [e3]
          omega
        have hset := h.1 c hc
        have e3 : _coresight_trace_id_read_cpu_id c id_map = (n : Int) := e2
        rw [e3] at hset
        simp only [Int.toNat_ofNat] at hset
        rw [h4] at hset
        exact Bool.noConfusion hset
  | put_cpu_id cpu =>
    simp only [api_step, Option.some.injEq] at hs
    subst hs
    exact owned_by_cpus_put_cpu_id k id_map cpu h
  | get_system_id =>
    obtain ⟨r, hr⟩ := option_map_snd_some _ _ hs
    rcases alloc_new_id_shape k id_map id_map1 0 TRACE_ID_PREFER_ODD r hr
      with e | ⟨n, _, _, _, _, e⟩
    · rw [e]
      exact h
    · rw [e]
      exact owned_by_cpus_set_bit id_map n h
  | get_static_system_id trace_id =>
    obtain ⟨r, hr⟩ := option_map_snd_some _ _ hs
    rcases alloc_new_id_shape k id_map id_map1 trace_id TRACE_ID_REQ_STATIC r hr
      with e | ⟨n, _, _, _, _, e⟩
    · rw [e]
      exact h
    · rw [e]
      exact owned_by_cpus_set_bit id_map n h
  | put_system_id id =>
    simp only [api_step, Option.some.injEq] at hs
    subst hs
    exact owned_by_cpus_free k id_map id h (put_respects_cpus_put_system_id id_map id hput)
  | perf_start =>
    simp only [api_step, Option.some.injEq] at hs
    subst hs
    exact h
  | perf_stop =>
    simp only [api_step, Option.some.injEq] at hs
    subst hs
    unfold coresight_trace_id_perf_stop
    simp only
    split
    · exact owned_by_cpus_release_all k _
    · exact h

theorem owned_by_cpus_run (k : trace_id_consts) (cs : List api_call) :
    ∀ id_map, owned_by_cpus id_map → well_behaved k id_map cs = true →
      ∃ id_map1, api_run k id_map cs = some id_map1 ∧ owned_by_cpus id_map1 := by
  induction cs with
  | nil => exact fun m h _ => ⟨m, rfl, h⟩
  | cons c cs ih =>
    intro m h hwb
    obtain ⟨m2, h2⟩ := api_step_total k m c
    simp only [well_behaved, h2, Bool.and_eq_true] at hwb
    obtain ⟨m3, h3, ho⟩ := ih m2 (owned_by_cpus_step k m m2 c h hwb.1 h2) hwb.2
    exact ⟨m3, by simp only [api_run, h2, h3], ho⟩

theorem owned_by_cpus_init (n : Nat) : owned_by_cpus (id_map_init n) := by
  refine ⟨?_, ?_⟩
  · intro c hc
    exact absurd (read_id_map_init n c) hc
  · intro c1 _ _ hc1
    exact absurd (read_id_map_init n c1) hc1

/-! ## Lemmas on counting the ids in use -/

theorem ids_in_use_card_of_all_in_use (k : trace_id_consts) (used_ids : Nat)
    (h : all_in_use k used_ids) :
    (ids_in_use k used_ids).card = k.CORESIGHT_TRACE_ID_RES_TOP - 1 := by
  have he : ids_in_use k used_ids = Finset.Ico 1 k.CORESIGHT_TRACE_ID_RES_TOP := by
    unfold ids_in_use
    apply Finset.filter_true_of_mem
    intro j hj
    rw [Finset.mem_Ico] at hj
    exact h j hj.1 hj.2
  rw [he, Nat.card_Ico]

theorem ids_in_use_card_set_bit (k : trace_id_consts) (used_ids n : Nat) :
    (ids_in_use k (set_bit n used_ids)).card ≤ (ids_in_use k used_ids).card + 1 := by
  have hsub : ids_in_use k (set_bit n used_ids) ⊆ insert n (ids_in_use k used_ids) := by
    intro j hj
    simp only [ids_in_use, Finset.mem_filter, Finset.mem_Ico, test_bit_set_bit,
      Bool.or_eq_true, decide_eq_true_eq] at hj
    rw [Finset.mem_insert]
    rcases hj.2 with e | e
    · exact Or.inl e
    · right
      simp only [ids_in_use, Finset.mem_filter, Finset.mem_Ico]
      exact ⟨hj.1, e⟩
  exact le_trans (Finset.card_le_card hsub) (Finset.card_insert_le n _)

theorem ids_in_use_zero (k : trace_id_consts) : (ids_in_use k 0).card = 0 := by
  rw [Finset.card_eq_zero]
  unfold ids_in_use
  apply Finset.filter_false_of_mem
  intro j _
  simp [test_bit_zero_bitmap]

/-- Distinct valid CPUs without ids, fewer than the free ids can serve, all get
ids, all different, whose bits were clear before. -/
theorem get_cpu_id_each_spec (k : trace_id_consts) (cpus : List Nat) :
    ∀ id_map : coresight_trace_id_map, cpus.Nodup →
      (∀ c ∈ cpus, c < id_map.cpu_map.length ∧ _coresight_trace_id_read_cpu_id c id_map = 0) →
      (ids_in_use k id_map.used_ids).card + cpus.length < k.CORESIGHT_TRACE_ID_RES_TOP →
      ∃ ids id_map1, get_cpu_id_each k id_map cpus = some (ids, id_map1) ∧
        ids.length = cpus.length ∧
        (∀ r ∈ ids, IS_VALID_CS_TRACE_ID k r = true ∧
          test_bit r.toNat id_map.used_ids = false) ∧
        ids.Nodup := by
  induction cpus with
  | nil =>
    intro m _ _ _
    exact ⟨[], m, rfl, rfl, fun r hr => absurd hr (List.not_mem_nil r), List.nodup_nil⟩
  | cons cpu cpus ih =>
    intro m hnd hcpus hcard
    have hcpu := hcpus cpu (List.mem_cons_self cpu cpus)
    rw [List.nodup_cons] at hnd
    obtain ⟨r, m1, h, hout⟩ := get_cpu_id_unbound_outcome k cpu m hcpu.2
    rcases hout with ⟨_, _, hfull⟩ | ⟨n, h1, h2, h3, h4, h5, _, _⟩
    · exfalso
      have := ids_in_use_card_of_all_in_use k m.used_ids hfull
      simp only [List.length_cons] at hcard
      omega
    · have hused : m1.used_ids = set_bit n m.used_ids := by rw [h5]; rfl
      have hlen : m1.cpu_map.length = m.cpu_map.length := by
        rw [h5]
        simp [cpu_map_set]
      have hrest : ∀ c ∈ cpus, c < m1.cpu_map.length ∧
          _coresight_trace_id_read_cpu_id c m1 = 0 := by
        intro c hc
        have hcm := hcpus c (List.mem_cons_of_mem cpu hc)
        have hne : c ≠ cpu := by
          intro e
          subst e
          exact hnd.1 hc
        refine ⟨by rw [hlen]; exact hcm.1, ?_⟩
        rw [h5, read_cpu_map_set_of_ne cpu c _ _ hne]
        exact hcm.2
      have hcard1 : (ids_in_use k m1.used_ids).card + cpus.length
          < k.CORESIGHT_TRACE_ID_RES_TOP := by
        rw [hused]
        have := ids_in_use_card_set_bit k m.used_ids n
        simp only [List.length_cons] at hcard
        omega
      obtain ⟨ids, m2, hrun, hl, hids, hnodup⟩ := ih m1 hnd.2 hrest hcard1
      refine ⟨r :: ids, m2, ?_, ?_, ?_, ?_⟩
      · simp only [get_cpu_id_each, h, hrun]
      · simp only [List.length_cons, hl]
      · intro x hx
        rw [List.mem_cons] at hx
        rcases hx with e | hx
        · subst e
          rw [h1]
          refine ⟨IS_VALID_CS_TRACE_ID_cast k n h2 h3, ?_⟩
          simpa using h4
        · obtain ⟨hv, hclear⟩ := hids x hx
          refine ⟨hv, ?_⟩
          rw [hused, test_bit_set_bit] at hclear
          simp only [Bool.or_eq_false_iff] at hclear
          exact hclear.2
      · rw [List.nodup_cons]
        refine ⟨?_, hnodup⟩
        intro hmem
        obtain ⟨_, hclear⟩ := hids r hmem
        rw [hused, h1] at hclear
        simp only [Int.toNat_ofNat] at hclear
        rw [test_bit_set_bit_self] at hclear
        exact Bool.noConfusion hclear

/-- What `put_cpu_id` does on any map: if the entry of the CPU is 0, nothing.
Otherwise, with `id` the entry, afterwards the entry is 0 and every other entry,
the length of the table and the session counter are unchanged; when `id` is a
valid id its bit is clear afterwards (also when it was clear before) and every
other bit is unchanged; when `id` is no valid id the bitmap is unchanged. -/
theorem put_cpu_id_frame (k : trace_id_consts) (cpu : Nat) (id_map : coresight_trace_id_map) :
    (_coresight_trace_id_read_cpu_id cpu id_map = 0 →
      _coresight_trace_id_put_cpu_id k cpu id_map = id_map) ∧
    (_coresight_trace_id_read_cpu_id cpu id_map ≠ 0 →
      _coresight_trace_id_read_cpu_id cpu (_coresight_trace_id_put_cpu_id k cpu id_map) = 0 ∧
      (∀ c, c ≠ cpu →
        _coresight_trace_id_read_cpu_id c (_coresight_trace_id_put_cpu_id k cpu id_map)
          = _coresight_trace_id_read_cpu_id c id_map) ∧
      (_coresight_trace_id_put_cpu_id k cpu id_map).cpu_map.length = id_map.cpu_map.length ∧
      (_coresight_trace_id_put_cpu_id k cpu id_map).perf_cs_etm_session_active
        = id_map.perf_cs_etm_session_active ∧
      (IS_VALID_CS_TRACE_ID k (_coresight_trace_id_read_cpu_id cpu id_map) = true →
        test_bit (_coresight_trace_id_read_cpu_id cpu id_map).toNat
            (_coresight_trace_id_put_cpu_id k cpu id_map).used_ids = false ∧
        ∀ j, j ≠ (_coresight_trace_id_read_cpu_id cpu id_map).toNat →
          test_bit j (_coresight_trace_id_put_cpu_id k cpu id_map).used_ids
            = test_bit j id_map.used_ids) ∧
      (IS_VALID_CS_TRACE_ID k (_coresight_trace_id_read_cpu_id cpu id_map) = false →
        (_coresight_trace_id_put_cpu_id k cpu id_map).used_ids = id_map.used_ids)) := by
  constructor
  · intro h
    simp [_coresight_trace_id_put_cpu_id, h]
  · intro h
    have hlen := cpu_valid_of_read_ne_zero cpu id_map h
    have hput : _coresight_trace_id_put_cpu_id k cpu id_map
        = cpu_map_set cpu 0
            (coresight_trace_id_free k (_coresight_trace_id_read_cpu_id cpu id_map) id_map) := by
      simp [_coresight_trace_id_put_cpu_id, h]
    have hfree_cpu : (coresight_trace_id_free k (_coresight_trace_id_read_cpu_id cpu id_map)
        id_map).cpu_map = id_map.cpu_map := by
      cases hv : IS_VALID_CS_TRACE_ID k (_coresight_trace_id_read_cpu_id cpu id_map)
      · rw [coresight_trace_id_free_invalid k _ id_map hv]
      · rw [coresight_trace_id_free_valid k _ id_map hv]
    have hfree_perf : (coresight_trace_id_free k (_coresight_trace_id_read_cpu_id cpu id_map)
        id_map).perf_cs_etm_session_active = id_map.perf_cs_etm_session_active := by
      cases hv : IS_VALID_CS_TRACE_ID k (_coresight_trace_id_read_cpu_id cpu id_map)
      · rw [coresight_trace_id_free_invalid k _ id_map hv]
      · rw [coresight_trace_id_free_valid k _ id_map hv]
    rw [hput]
    refine ⟨?_, ?_, ?_, ?_, ?_, ?_⟩
    · apply read_cpu_map_set_self
      rw [hfree_cpu]
      exact hlen
    · intro c hc
      rw [read_cpu_map_set_of_ne cpu c _ _ hc]
      have hcongr : ∀ m1 m2 : coresight_trace_id_map, m1.cpu_map = m2.cpu_map →
          _coresight_trace_id_read_cpu_id c m1 = _coresight_trace_id_read_cpu_id c m2 := by
        intro m1 m2 e
        simp only [_coresight_trace_id_read_cpu_id, e]
      exact hcongr _ _ hfree_cpu
    · simp only [cpu_map_set, List.length_set, hfree_cpu]
    · simp only [cpu_map_set, hfree_perf]
    · intro hv
      rw [coresight_trace_id_free_valid k _ id_map hv]
      refine ⟨?_, ?_⟩
      · simp [cpu_map_set, test_bit_clear_bit]
      · intro j hj
        simp [cpu_map_set, test_bit_clear_bit, hj]
    · intro hv
      rw [coresight_trace_id_free_invalid k _ id_map hv]
      rfl

/-! ## The claims -/

/-- C1: whenever `get_system_id`, `get_static_system_id` or `get_cpu_id` for a CPU
without an id succeeds (returns no negative errno), the returned id lies in
`[1, limit)`, its bit was clear before the call and is set after it; and on
any map in which that bit is set no such call returns this id again. -/
theorem alloc_success_in_range_and_fresh (k : trace_id_consts)
    (id_map id_map1 : coresight_trace_id_map) (c : alloc_call) (id : Int)
    (hfresh : allocates_afresh id_map c)
    (hrun : run_alloc k id_map c = some (id, id_map1)) (hok : 0 ≤ id) :
    1 ≤ id ∧ id < (k.CORESIGHT_TRACE_ID_RES_TOP : Int) ∧
      test_bit id.toNat id_map.used_ids = false ∧
      test_bit id.toNat id_map1.used_ids = true ∧
      ∀ (id_map2 id_map3 : coresight_trace_id_map) (c2 : alloc_call) (id2 : Int),
        test_bit id.toNat id_map2.used_ids = true → allocates_afresh id_map2 c2 →
        run_alloc k id_map2 c2 = some (id2, id_map3) → id2 ≠ id := by
  have key : ∀ (m m1 : coresight_trace_id_map) (c : alloc_call) (r : Int),
      allocates_afresh m c → run_alloc k m c = some (r, m1) → 0 ≤ r →
      1 ≤ r ∧ r < (k.CORESIGHT_TRACE_ID_RES_TOP : Int) ∧
        test_bit r.toNat m.used_ids = false ∧ test_bit r.toNat m1.used_ids = true := by
    intro m m1 c r hf hr h0
    obtain ⟨r2, m2, h, hout⟩ := run_alloc_outcome k m c hf
    rw [hr] at h
    simp only [Option.some.injEq, Prod.mk.injEq] at h
    obtain ⟨e1, e2⟩ := h
    subst e1 e2
    rcases hout with ⟨_, hr | hr⟩ | ⟨n, h1, h2, h3, h4, h5⟩
    · rw [hr] at h0
      simp [EINVAL] at h0
    · rw [hr] at h0
      simp [EBUSY] at h0
    · subst h1
      refine ⟨by omega, by omega, ?_, ?_⟩
      · simpa using h4
      · rw [h5]
        simpa using test_bit_set_bit_self n m.used_ids
  obtain ⟨h1, h2, h3, h4⟩ := key id_map id_map1 c id hfresh hrun hok
  refine ⟨h1, h2, h3, h4, ?_⟩
  intro m2 m3 c2 id2 hset hf2 hr2 heq
  subst heq
  have := (key m2 m3 c2 id2 hf2 hr2 hok).2.2.1
  rw [this] at hset
  exact Bool.false_ne_true hset

theorem alloc_success_in_range_and_fresh_witness :
    allocates_afresh ⟨0, [0, 0], 0⟩ (alloc_call.get_cpu_id 1) ∧
    run_alloc mainline ⟨0, [0, 0], 0⟩ (alloc_call.get_cpu_id 1)
      = some (18, ⟨2 ^ 18, [0, 18], 0⟩) ∧
    (1 : Int) ≤ 18 ∧ (18 : Int) < (mainline.CORESIGHT_TRACE_ID_RES_TOP : Int) ∧
    test_bit (18 : Int).toNat (0 : Nat) = false ∧
    test_bit (18 : Int).toNat (2 ^ 18 : Nat) = true :=
  have h := alloc_success_in_range_and_fresh mainline ⟨0, [0, 0], 0⟩ ⟨2 ^ 18, [0, 18], 0⟩
    (alloc_call.get_cpu_id 1) 18 (by decide) (by decide) (by decide)
  ⟨by decide, by decide, h.1, h.2.1, h.2.2.1, h.2.2.2.1⟩

/-- C2: for a valid CPU, two calls of `get_cpu_id` in a row return the same value,
and the second call leaves the map exactly as the first one left it. -/
theorem get_cpu_id_twice (k : trace_id_consts) (cpu : Nat) (id_map : coresight_trace_id_map)
    (hvalid : cpu < id_map.cpu_map.length) :
    ∃ id id_map1, _coresight_trace_id_get_cpu_id k cpu id_map = some (id, id_map1) ∧
      _coresight_trace_id_get_cpu_id k cpu id_map1 = some (id, id_map1) := by
  by_cases hb : _coresight_trace_id_read_cpu_id cpu id_map = 0
  · obtain ⟨r, m1, h, hout⟩ := get_cpu_id_unbound_outcome k cpu id_map hb
    refine ⟨r, m1, h, ?_⟩
    rcases hout with ⟨e1, _, _⟩ | ⟨n, h1, h2, h3, h4, h5, _, _⟩
    · rw [e1]
      rw [e1] at h
      exact h
    · have hlen : cpu < ({ id_map with used_ids := set_bit n id_map.used_ids } :
          coresight_trace_id_map).cpu_map.length := hvalid
      have hread : _coresight_trace_id_read_cpu_id cpu m1 = (n : Int) := by
        rw [h5]
        exact read_cpu_map_set_self cpu _ _ hlen
      have hne : _coresight_trace_id_read_cpu_id cpu m1 ≠ 0 := by
        rw [hread]
        omega
      rw [get_cpu_id_bound k cpu m1 hne, hread, h1]
  · exact ⟨_, _, get_cpu_id_bound k cpu id_map hb, get_cpu_id_bound k cpu id_map hb⟩

theorem get_cpu_id_twice_witness :
    (1 : Nat) < [(0 : Int), 0].length ∧
    ∃ id id_map1, _coresight_trace_id_get_cpu_id mainline 1 ⟨0, [0, 0], 0⟩
        = some (id, id_map1) ∧
      _coresight_trace_id_get_cpu_id mainline 1 id_map1 = some (id, id_map1) :=
  ⟨by decide, get_cpu_id_twice mainline 1 ⟨0, [0, 0], 0⟩ (by decide)⟩

/-- C3: for a valid CPU without an id on a map with a free id in `[1, limit)`,
`get_cpu_id` returns the legacy id of the CPU when that is a valid id whose bit
is clear and the lowest free id of `[1, limit)` otherwise; it stores the id in
the entry of the CPU, sets exactly that bit and changes nothing else. And
directly after `release_all` (bitmap at least as long as the range) every valid
CPU with a valid legacy id gets its legacy id. -/
theorem get_cpu_id_prefers_legacy (k : trace_id_consts) (cpu : Nat)
    (id_map : coresight_trace_id_map) (hvalid : cpu < id_map.cpu_map.length)
    (hunbound : _coresight_trace_id_read_cpu_id cpu id_map = 0)
    (hfree : ∃ j, 1 ≤ j ∧ j < k.CORESIGHT_TRACE_ID_RES_TOP ∧
      test_bit j id_map.used_ids = false) :
    (∃ (id : Nat) (id_map1 : coresight_trace_id_map),
      _coresight_trace_id_get_cpu_id k cpu id_map = some ((id : Int), id_map1) ∧
      ((IS_VALID_CS_TRACE_ID k (k.CORESIGHT_LEGACY_CPU_TRACE_ID cpu) = true ∧
          test_bit (k.CORESIGHT_LEGACY_CPU_TRACE_ID cpu).toNat id_map.used_ids = false) →
        (id : Int) = k.CORESIGHT_LEGACY_CPU_TRACE_ID cpu) ∧
      (¬ (IS_VALID_CS_TRACE_ID k (k.CORESIGHT_LEGACY_CPU_TRACE_ID cpu) = true ∧
          test_bit (k.CORESIGHT_LEGACY_CPU_TRACE_ID cpu).toNat id_map.used_ids = false) →
        lowest_free k id_map.used_ids id) ∧
      _coresight_trace_id_read_cpu_id cpu id_map1 = (id : Int) ∧
      (∀ c, c ≠ cpu → _coresight_trace_id_read_cpu_id c id_map1
        = _coresight_trace_id_read_cpu_id c id_map) ∧
      id_map1.cpu_map.length = id_map.cpu_map.length ∧
      test_bit id id_map.used_ids = false ∧
      test_bit id id_map1.used_ids = true ∧
      (∀ j, j ≠ id → test_bit j id_map1.used_ids = test_bit j id_map.used_ids) ∧
      id_map1.perf_cs_etm_session_active = id_map.perf_cs_etm_session_active) ∧
    (∀ id_map0 : coresight_trace_id_map, cpu < id_map0.cpu_map.length →
      k.CORESIGHT_TRACE_ID_RES_TOP ≤ k.CORESIGHT_TRACE_IDS_MAX →
      IS_VALID_CS_TRACE_ID k (k.CORESIGHT_LEGACY_CPU_TRACE_ID cpu) = true →
      ∃ id_map2, _coresight_trace_id_get_cpu_id k cpu (coresight_trace_id_release_all k id_map0)
          = some (k.CORESIGHT_LEGACY_CPU_TRACE_ID cpu, id_map2) ∧
        _coresight_trace_id_read_cpu_id cpu id_map2 = k.CORESIGHT_LEGACY_CPU_TRACE_ID cpu) := by
  constructor
  · obtain ⟨r, m1, h, hout⟩ := get_cpu_id_unbound_outcome k cpu id_map hunbound
    rcases hout with ⟨_, _, hfull⟩ | ⟨n, h1, h2, h3, h4, h5, h6, h7⟩
    · obtain ⟨j, hj1, hj2, hj3⟩ := hfree
      rw [hfull j hj1 hj2] at hj3
      exact Bool.noConfusion hj3
    · subst h1
      have hlen : cpu < ({ id_map with used_ids := set_bit n id_map.used_ids } :
          coresight_trace_id_map).cpu_map.length := hvalid
      refine ⟨n, m1, h, h6, h7, ?_, ?_, ?_, h4, ?_, ?_, ?_⟩
      · rw [h5]
        exact read_cpu_map_set_self cpu _ _ hlen
      · intro c hc
        rw [h5]
        exact read_cpu_map_set_of_ne cpu c _ _ hc
      · rw [h5]
        simp [cpu_map_set]
      · rw [h5]
        exact test_bit_set_bit_self n id_map.used_ids
      · intro j hj
        rw [h5]
        exact test_bit_set_bit_of_ne n j id_map.used_ids hj
      · rw [h5]
        rfl
  · intro m0 hv0 hmax hleg
    have hvr := (IS_VALID_CS_TRACE_ID_iff k _).1 hleg
    have hread : _coresight_trace_id_read_cpu_id cpu (coresight_trace_id_release_all k m0)
        = 0 := by
      simp only [_coresight_trace_id_read_cpu_id, coresight_trace_id_release_all,
        List.getD_eq_getElem?_getD, List.getElem?_map]
      cases m0.cpu_map[cpu]? <;> rfl
    have hclear : test_bit (k.CORESIGHT_LEGACY_CPU_TRACE_ID cpu).toNat
        (coresight_trace_id_release_all k m0).used_ids = false := by
      simp only [coresight_trace_id_release_all, test_bit_bitmap_zero]
      have : ¬ k.CORESIGHT_TRACE_IDS_MAX ≤ (k.CORESIGHT_LEGACY_CPU_TRACE_ID cpu).toNat := by
        omega
      simp [this]
    have hlen0 : cpu < (coresight_trace_id_release_all k m0).cpu_map.length := by
      simpa [coresight_trace_id_release_all] using hv0
    obtain ⟨r, m1, h, hout⟩ := get_cpu_id_unbound_outcome k cpu _ hread
    rcases hout with ⟨_, _, hfull⟩ | ⟨n, h1, h2, h3, h4, h5, h6, h7⟩
    · have := hfull (k.CORESIGHT_LEGACY_CPU_TRACE_ID cpu).toNat (by omega) (by omega)
      rw [this] at hclear
      exact Bool.noConfusion hclear
    · have hn := h6 ⟨hleg, hclear⟩
      refine ⟨m1, ?_, ?_⟩
      · rw [h, h1, hn]
      · rw [h5, ← hn]
        exact read_cpu_map_set_self cpu _ _ hlen0

theorem get_cpu_id_prefers_legacy_witness :
    (1 : Nat) < [(0 : Int), 0].length ∧
    _coresight_trace_id_read_cpu_id 1 ⟨2 ^ 18 + 2, [0, 0], 0⟩ = 0 ∧
    (∃ j, 1 ≤ j ∧ j < mainline.CORESIGHT_TRACE_ID_RES_TOP ∧
      test_bit j (2 ^ 18 + 2) = false) ∧
    (∃ (id : Nat) (id_map1 : coresight_trace_id_map),
      _coresight_trace_id_get_cpu_id mainline 1 ⟨2 ^ 18 + 2, [0, 0], 0⟩
        = some ((id : Int), id_map1) ∧
      lowest_free mainline (2 ^ 18 + 2) id ∧
      _coresight_trace_id_read_cpu_id 1 id_map1 = (id : Int)) ∧
    (∃ id_map2, _coresight_trace_id_get_cpu_id mainline 1
          (coresight_trace_id_release_all mainline ⟨2 ^ 18 + 2, [0, 0], 0⟩)
        = some (mainline.CORESIGHT_LEGACY_CPU_TRACE_ID 1, id_map2) ∧
      _coresight_trace_id_read_cpu_id 1 id_map2 = mainline.CORESIGHT_LEGACY_CPU_TRACE_ID 1) := by
  obtain ⟨⟨id, m1, e, _, hlow, hr, _⟩, h2⟩ :=
    get_cpu_id_prefers_legacy mainline 1 ⟨2 ^ 18 + 2, [0, 0], 0⟩ (by decide) (by decide)
      ⟨2, by decide, by decide, by decide⟩
  exact ⟨by decide, by decide, ⟨2, by decide, by decide, by decide⟩,
    ⟨id, m1, e, hlow (by decide), hr⟩,
    h2 ⟨2 ^ 18 + 2, [0, 0], 0⟩ (by decide) (by decide) (by decide)⟩

/-- C4: on a map with a free id in `[1, limit)`, `get_system_id` returns the
lowest free odd id of `[1, limit)` when some odd id of the range is free, and
the lowest free id of `[1, limit)` when every odd id of the range is in use; in
both cases exactly the bit of the returned id becomes set. -/
theorem get_system_id_prefers_odd (k : trace_id_consts) (id_map : coresight_trace_id_map)
    (hfree : ∃ j, 1 ≤ j ∧ j < k.CORESIGHT_TRACE_ID_RES_TOP ∧
      test_bit j id_map.used_ids = false) :
    ∃ (id : Nat) (id_map1 : coresight_trace_id_map),
      coresight_trace_id_get_system_id k id_map = some ((id : Int), id_map1) ∧
      ((∃ o, o < k.CORESIGHT_TRACE_ID_RES_TOP ∧ o % 2 = 1 ∧
          test_bit o id_map.used_ids = false) → lowest_free_odd k id_map.used_ids id) ∧
      ((∀ o, o < k.CORESIGHT_TRACE_ID_RES_TOP → o % 2 = 1 →
          test_bit o id_map.used_ids = true) → lowest_free k id_map.used_ids id) ∧
      test_bit id id_map.used_ids = false ∧
      test_bit id id_map1.used_ids = true ∧
      (∀ j, j ≠ id → test_bit j id_map1.used_ids = test_bit j id_map.used_ids) ∧
      id_map1.cpu_map = id_map.cpu_map ∧
      id_map1.perf_cs_etm_session_active = id_map.perf_cs_etm_session_active := by
  unfold coresight_trace_id_get_system_id coresight_trace_id_map_get_system_id
  rcases alloc_new_id_prefer_odd k id_map with ⟨id, hlow, h⟩ | ⟨hall, h⟩
  · refine ⟨id, _, h, fun _ => hlow, ?_, hlow.2.2.1, ?_, ?_, rfl, rfl⟩
    · intro hodd
      have := hodd id hlow.1 hlow.2.1
      rw [hlow.2.2.1] at this
      exact Bool.noConfusion this
    · exact test_bit_set_bit_self id id_map.used_ids
    · intro j hj
      exact test_bit_set_bit_of_ne id j id_map.used_ids hj
  · rcases alloc_next_free_spec k id_map with ⟨hfull, _⟩ | ⟨id, hlow, ht⟩
    · obtain ⟨j, hj1, hj2, hj3⟩ := hfree
      rw [hfull j hj1 hj2] at hj3
      exact Bool.noConfusion hj3
    · rw [ht] at h
      refine ⟨id, _, h, ?_, fun _ => hlow, hlow.2.2.1, ?_, ?_, rfl, rfl⟩
      · rintro ⟨o, ho1, ho2, ho3⟩
        rw [hall o ho1 ho2] at ho3
        exact Bool.noConfusion ho3
      · exact test_bit_set_bit_self id id_map.used_ids
      · intro j hj
        exact test_bit_set_bit_of_ne id j id_map.used_ids hj

theorem get_system_id_prefers_odd_witness :
    (∃ j, 1 ≤ j ∧ j < mainline.CORESIGHT_TRACE_ID_RES_TOP ∧ test_bit j 10 = false) ∧
    ∃ (id : Nat) (id_map1 : coresight_trace_id_map),
      coresight_trace_id_get_system_id mainline ⟨10, [0], 0⟩ = some ((id : Int), id_map1) ∧
      lowest_free_odd mainline 10 id ∧ test_bit id id_map1.used_ids = true := by
  obtain ⟨id, m1, e, hodd, _, _, hset, _⟩ :=
    get_system_id_prefers_odd mainline ⟨10, [0], 0⟩ ⟨2, by decide, by decide, by decide⟩
  exact ⟨⟨2, by decide, by decide, by decide⟩, id, m1, e,
    hodd ⟨5, by decide, by decide, by decide⟩, hset⟩

/-- C5: for a requested id in `(0, limit)` whose bit is clear,
`get_static_system_id` returns exactly that id, sets exactly its bit and leaves
every other bit, the per-CPU table and the session counter unchanged. -/
theorem get_static_system_id_free (k : trace_id_consts) (id_map : coresight_trace_id_map)
    (trace_id : Int) (hpos : 0 < trace_id)
    (hlt : trace_id < (k.CORESIGHT_TRACE_ID_RES_TOP : Int))
    (hclear : test_bit trace_id.toNat id_map.used_ids = false) :
    ∃ id_map1, coresight_trace_id_get_static_system_id k id_map trace_id
        = some (trace_id, id_map1) ∧
      test_bit trace_id.toNat id_map1.used_ids = true ∧
      (∀ j, j ≠ trace_id.toNat → test_bit j id_map1.used_ids = test_bit j id_map.used_ids) ∧
      id_map1.cpu_map = id_map.cpu_map ∧
      id_map1.perf_cs_etm_session_active = id_map.perf_cs_etm_session_active := by
  have hv : IS_VALID_CS_TRACE_ID k trace_id = true :=
    (IS_VALID_CS_TRACE_ID_iff k trace_id).2 ⟨hpos, hlt⟩
  have hcast : ((trace_id.toNat : Nat) : Int) = trace_id := by omega
  refine ⟨{ id_map with used_ids := set_bit trace_id.toNat id_map.used_ids }, ?_, ?_, ?_,
    rfl, rfl⟩
  · unfold coresight_trace_id_get_static_system_id coresight_trace_id_map_get_system_id
    rw [alloc_new_id_preferred_free k id_map trace_id _ hv hclear, trace_id_allocated, hcast]
  · exact test_bit_set_bit_self _ _
  · intro j hj
    exact test_bit_set_bit_of_ne _ j _ hj

theorem get_static_system_id_free_witness :
    (0 : Int) < 5 ∧ (5 : Int) < (mainline.CORESIGHT_TRACE_ID_RES_TOP : Int) ∧
    test_bit (5 : Int).toNat 10 = false ∧
    ∃ id_map1, coresight_trace_id_get_static_system_id mainline ⟨10, [0], 0⟩ 5
        = some (5, id_map1) ∧
      test_bit (5 : Int).toNat id_map1.used_ids = true ∧
      (∀ j, j ≠ (5 : Int).toNat → test_bit j id_map1.used_ids = test_bit j 10) ∧
      id_map1.cpu_map = [0] ∧
      id_map1.perf_cs_etm_session_active = 0 :=
  ⟨by decide, by decide, by decide,
    get_static_system_id_free mainline ⟨10, [0], 0⟩ 5 (by decide) (by decide) (by decide)⟩

/-- C6: for an id in `(0, limit)` whose bit is set, `get_static_system_id` fails
with `-EBUSY` and changes nothing; `-EBUSY` is no valid id and differs from
`-EINVAL`, which is what an invalid argument and an exhausted range give. -/
theorem get_static_system_id_busy (k : trace_id_consts) (id_map : coresight_trace_id_map)
    (trace_id : Int) (hpos : 0 < trace_id)
    (hlt : trace_id < (k.CORESIGHT_TRACE_ID_RES_TOP : Int))
    (hset : test_bit trace_id.toNat id_map.used_ids = true) :
    coresight_trace_id_get_static_system_id k id_map trace_id = some (-EBUSY, id_map) ∧
      -EBUSY ≠ -EINVAL ∧ IS_VALID_CS_TRACE_ID k (-EBUSY) = false ∧
      (∀ (m : coresight_trace_id_map) (y : Int), IS_VALID_CS_TRACE_ID k y = false →
        coresight_trace_id_get_static_system_id k m y = some (-EINVAL, m)) ∧
      (∀ m : coresight_trace_id_map, all_in_use k m.used_ids →
        coresight_trace_id_get_system_id k m = some (-EINVAL, m)) := by
  have hv : IS_VALID_CS_TRACE_ID k trace_id = true :=
    (IS_VALID_CS_TRACE_ID_iff k trace_id).2 ⟨hpos, hlt⟩
  refine ⟨?_, by decide, IS_VALID_CS_TRACE_ID_neg_EBUSY k, ?_, ?_⟩
  · unfold coresight_trace_id_get_static_system_id coresight_trace_id_map_get_system_id
    exact alloc_new_id_static_busy k id_map trace_id hv hset
  · intro m y hy
    exact get_static_system_id_invalid k m y hy
  · intro m hm
    exact get_system_id_exhausted k m hm

theorem get_static_system_id_busy_witness :
    (0 : Int) < 3 ∧ (3 : Int) < (mainline.CORESIGHT_TRACE_ID_RES_TOP : Int) ∧
    test_bit (3 : Int).toNat 10 = true ∧
    coresight_trace_id_get_static_system_id mainline ⟨10, [3], 0⟩ 3
      = some (-EBUSY, ⟨10, [3], 0⟩) :=
  ⟨by decide, by decide, by decide,
    (get_static_system_id_busy mainline ⟨10, [3], 0⟩ 3 (by decide) (by decide)
      (by decide)).1⟩

/-- C7: for a requested id outside `(0, limit)`, `get_static_system_id` fails with
`-EINVAL` and leaves the whole map unchanged, whatever the bitmap holds. -/
theorem get_static_system_id_out_of_range (k : trace_id_consts)
    (id_map : coresight_trace_id_map) (trace_id : Int)
    (hout : trace_id ≤ 0 ∨ (k.CORESIGHT_TRACE_ID_RES_TOP : Int) ≤ trace_id) :
    coresight_trace_id_get_static_system_id k id_map trace_id = some (-EINVAL, id_map) := by
  apply get_static_system_id_invalid
  cases hv : IS_VALID_CS_TRACE_ID k trace_id
  · rfl
  · have := (IS_VALID_CS_TRACE_ID_iff k trace_id).1 hv
    omega

theorem get_static_system_id_out_of_range_witness :
    ((112 : Int) ≤ 0 ∨ (mainline.CORESIGHT_TRACE_ID_RES_TOP : Int) ≤ 112) ∧
    coresight_trace_id_get_static_system_id mainline ⟨0, [0], 0⟩ 112
      = some (-EINVAL, ⟨0, [0], 0⟩) :=
  ⟨by decide, get_static_system_id_out_of_range mainline ⟨0, [0], 0⟩ 112 (by decide)⟩

/-- C8: on a map in which every id of `[1, limit)` is in use, `get_system_id`
fails with `-EINVAL`, and so does `get_cpu_id` for every CPU without an id; both
leave the whole map exactly as it was, and `-EINVAL` is no valid id. -/
theorem alloc_exhausted (k : trace_id_consts) (id_map : coresight_trace_id_map)
    (hfull : all_in_use k id_map.used_ids) :
    coresight_trace_id_get_system_id k id_map = some (-EINVAL, id_map) ∧
      (∀ cpu, _coresight_trace_id_read_cpu_id cpu id_map = 0 →
        _coresight_trace_id_get_cpu_id k cpu id_map = some (-EINVAL, id_map)) ∧
      IS_VALID_CS_TRACE_ID k (-EINVAL) = false := by
  refine ⟨get_system_id_exhausted k id_map hfull, ?_, IS_VALID_CS_TRACE_ID_neg_EINVAL k⟩
  intro cpu hcpu
  obtain ⟨r, m1, h, hout⟩ := get_cpu_id_unbound_outcome k cpu id_map hcpu
  rcases hout with ⟨e1, e2, _⟩ | ⟨n, _, h2, h3, h4, _⟩
  · rw [h, e1, e2]
  · have := hfull n h2 h3
    rw [h4] at this
    exact Bool.noConfusion this

theorem alloc_exhausted_witness :
    all_in_use mainline (2 ^ 112 - 2) ∧
    coresight_trace_id_get_system_id mainline ⟨2 ^ 112 - 2, [0, 5], 0⟩
      = some (-EINVAL, ⟨2 ^ 112 - 2, [0, 5], 0⟩) ∧
    _coresight_trace_id_get_cpu_id mainline 0 ⟨2 ^ 112 - 2, [0, 5], 0⟩
      = some (-EINVAL, ⟨2 ^ 112 - 2, [0, 5], 0⟩) :=
  have h := alloc_exhausted mainline ⟨2 ^ 112 - 2, [0, 5], 0⟩ (by decide)
  ⟨by decide, h.1, h.2.1 0 (by decide)⟩

/-- C9, as stated, fails: on the mainline constants with every id of `[1, limit)`
in use, `get_system_id` allocates nothing and returns `-22` (`-EINVAL`), which
is not 0. -/
theorem alloc_failure_not_zero_counterexample :
    run_alloc mainline ⟨2 ^ 112 - 2, [0], 0⟩ alloc_call.get_system_id
      = some (-22, ⟨2 ^ 112 - 2, [0], 0⟩) ∧
    IS_VALID_CS_TRACE_ID mainline (-22) = false ∧ (-22 : Int) ≠ 0 := by
  decide

/-- C9, amended: whenever `get_system_id`, `get_static_system_id` or `get_cpu_id` for a
CPU without an id returns a value that is no valid id, that value is a negative
errno and the map is unchanged: `-EBUSY` exactly for a static request of a valid
id whose bit is set, `-EINVAL` otherwise (range exhausted for `get_system_id`
and `get_cpu_id`, id out of range for a static request). It is never 0. -/
theorem alloc_failure_returns_errno (k : trace_id_consts)
    (id_map id_map1 : coresight_trace_id_map) (c : alloc_call) (r : Int)
    (hfresh : allocates_afresh id_map c)
    (hrun : run_alloc k id_map c = some (r, id_map1))
    (hfail : IS_VALID_CS_TRACE_ID k r = false) :
    id_map1 = id_map ∧ r < 0 ∧ r ≠ 0 ∧
      ((r = -EBUSY ∧ ∃ x, c = alloc_call.get_static_system_id x ∧
          IS_VALID_CS_TRACE_ID k x = true ∧ test_bit x.toNat id_map.used_ids = true) ∨
        (r = -EINVAL ∧
          ((c = alloc_call.get_system_id ∧ all_in_use k id_map.used_ids) ∨
            (∃ cpu, c = alloc_call.get_cpu_id cpu ∧ all_in_use k id_map.used_ids) ∨
            (∃ x, c = alloc_call.get_static_system_id x ∧
              IS_VALID_CS_TRACE_ID k x = false)))) := by
  have hneg : ∀ x : Int, x = -EINVAL ∨ x = -EBUSY → x < 0 ∧ x ≠ 0 := by
    intro x hx
    rcases hx with hx | hx <;> subst hx <;> simp [EINVAL, EBUSY]
  cases c with
  | get_system_id =>
    by_cases hfull : all_in_use k id_map.used_ids
    · have h := get_system_id_exhausted k id_map hfull
      simp only [run_alloc] at hrun
      rw [h] at hrun
      simp only [Option.some.injEq, Prod.mk.injEq] at hrun
      obtain ⟨e1, e2⟩ := hrun
      subst e1 e2
      exact ⟨rfl, (hneg _ (Or.inl rfl)).1, (hneg _ (Or.inl rfl)).2,
        Or.inr ⟨rfl, Or.inl ⟨rfl, hfull⟩⟩⟩
    · exfalso
      have hfree : ∃ j, 1 ≤ j ∧ j < k.CORESIGHT_TRACE_ID_RES_TOP ∧
          test_bit j id_map.used_ids = false := by
        by_contra hne
        apply hfull
        intro j hj1 hj2
        cases hb : test_bit j id_map.used_ids
        · exact absurd ⟨j, hj1, hj2, hb⟩ hne
        · rfl
      obtain ⟨r2, m2, h, hout⟩ := run_alloc_outcome k id_map alloc_call.get_system_id hfresh
      rw [hrun] at h
      simp only [Option.some.injEq, Prod.mk.injEq] at h
      obtain ⟨e1, e2⟩ := h
      subst e1 e2
      rcases hout with ⟨_, _⟩ | ⟨n, h1, h2, h3, _, _⟩
      · rcases alloc_next_free_spec k id_map with ⟨hfull2, _⟩ | ⟨id, hlow, ht⟩
        · exact hfull hfull2
        · simp only [run_alloc, coresight_trace_id_get_system_id,
            coresight_trace_id_map_get_system_id] at hrun
          rcases alloc_new_id_prefer_odd k id_map with ⟨id2, hlow2, h⟩ | ⟨_, h⟩
          · rw [h] at hrun
            simp only [trace_id_allocated, Option.some.injEq, Prod.mk.injEq] at hrun
            have hid2 : 1 ≤ id2 := by
              have := hlow2.2.1
              omega
            rw [← hrun.1, IS_VALID_CS_TRACE_ID_cast k id2 hid2 hlow2.1] at hfail
            exact Bool.noConfusion hfail
          · rw [h, ht] at hrun
            simp only [trace_id_allocated, Option.some.injEq, Prod.mk.injEq] at hrun
            rw [← hrun.1, IS_VALID_CS_TRACE_ID_cast k id hlow.1 hlow.2.1] at hfail
            exact Bool.noConfusion hfail
      · rw [h1, IS_VALID_CS_TRACE_ID_cast k n h2 h3] at hfail
        exact Bool.noConfusion hfail
  | get_static_system_id x =>
    simp only [run_alloc, coresight_trace_id_get_static_system_id,
      coresight_trace_id_map_get_system_id] at hrun
    cases hv : IS_VALID_CS_TRACE_ID k x
    · rw [alloc_new_id_static_invalid k id_map x hv] at hrun
      simp only [Option.some.injEq, Prod.mk.injEq] at hrun
      obtain ⟨e1, e2⟩ := hrun
      subst e1 e2
      exact ⟨rfl, (hneg _ (Or.inl rfl)).1, (hneg _ (Or.inl rfl)).2,
        Or.inr ⟨rfl, Or.inr (Or.inr ⟨x, rfl, hv⟩)⟩⟩
    · cases hb : test_bit x.toNat id_map.used_ids
      · exfalso
        have hvr := (IS_VALID_CS_TRACE_ID_iff k x).1 hv
        have hcast : ((x.toNat : Nat) : Int) = x := by omega
        rw [alloc_new_id_preferred_free k id_map x _ hv hb] at hrun
        simp only [trace_id_allocated, Option.some.injEq, Prod.mk.injEq] at hrun
        rw [← hrun.1, hcast, hv] at hfail
        exact Bool.noConfusion hfail
      · rw [alloc_new_id_static_busy k id_map x hv hb] at hrun
        simp only [Option.some.injEq, Prod.mk.injEq] at hrun
        obtain ⟨e1, e2⟩ := hrun
        subst e1 e2
        exact ⟨rfl, (hneg _ (Or.inr rfl)).1, (hneg _ (Or.inr rfl)).2,
          Or.inl ⟨rfl, x, rfl, hv, hb⟩⟩
  | get_cpu_id cpu =>
    obtain ⟨r2, m2, h, hout⟩ := get_cpu_id_unbound_outcome k cpu id_map hfresh
    simp only [run_alloc] at hrun
    rw [hrun] at h
    simp only [Option.some.injEq, Prod.mk.injEq] at h
    obtain ⟨e1, e2⟩ := h
    subst e1 e2
    rcases hout with ⟨e1, e2, hfull⟩ | ⟨n, h1, h2, h3, _, _⟩
    · subst e1 e2
      exact ⟨rfl, (hneg _ (Or.inl rfl)).1, (hneg _ (Or.inl rfl)).2,
        Or.inr ⟨rfl, Or.inr (Or.inl ⟨cpu, rfl, hfull⟩)⟩⟩
    · rw [h1, IS_VALID_CS_TRACE_ID_cast k n h2 h3] at hfail
      exact Bool.noConfusion hfail

theorem alloc_failure_returns_errno_witness :
    allocates_afresh ⟨10, [3], 0⟩ (alloc_call.get_static_system_id 3) ∧
    run_alloc mainline ⟨10, [3], 0⟩ (alloc_call.get_static_system_id 3)
      = some (-16, ⟨10, [3], 0⟩) ∧
    IS_VALID_CS_TRACE_ID mainline (-16) = false ∧
    (-16 : Int) < 0 ∧ (-16 : Int) ≠ 0 :=
  have h := alloc_failure_returns_errno mainline ⟨10, [3], 0⟩ ⟨10, [3], 0⟩
    (alloc_call.get_static_system_id 3) (-16) (by decide) (by decide) (by decide)
  ⟨by decide, by decide, by decide, h.2.1, h.2.2.1⟩

/-- C10: in every state that a sequence of public operations reaches from the
initial map, for every CPU: if the entry of the CPU is 0, `put_cpu_id` changes
nothing; otherwise, with `id` the entry, after `put_cpu_id` the entry is 0 and
bit `id` is clear (also when it was clear before, the double free), while every
other bit, every other entry, the length of the table and the session counter
are unchanged. -/
theorem put_cpu_id_releases_binding (k : trace_id_consts) (n : Nat) (ops : List api_call)
    (id_map : coresight_trace_id_map) (hreach : api_run k (id_map_init n) ops = some id_map)
    (cpu : Nat) :
    (_coresight_trace_id_read_cpu_id cpu id_map = 0 →
      _coresight_trace_id_put_cpu_id k cpu id_map = id_map) ∧
    (_coresight_trace_id_read_cpu_id cpu id_map ≠ 0 →
      _coresight_trace_id_read_cpu_id cpu (_coresight_trace_id_put_cpu_id k cpu id_map) = 0 ∧
      test_bit (_coresight_trace_id_read_cpu_id cpu id_map).toNat
          (_coresight_trace_id_put_cpu_id k cpu id_map).used_ids = false ∧
      (∀ j, j ≠ (_coresight_trace_id_read_cpu_id cpu id_map).toNat →
        test_bit j (_coresight_trace_id_put_cpu_id k cpu id_map).used_ids
          = test_bit j id_map.used_ids) ∧
      (∀ c, c ≠ cpu →
        _coresight_trace_id_read_cpu_id c (_coresight_trace_id_put_cpu_id k cpu id_map)
          = _coresight_trace_id_read_cpu_id c id_map) ∧
      (_coresight_trace_id_put_cpu_id k cpu id_map).cpu_map.length = id_map.cpu_map.length ∧
      (_coresight_trace_id_put_cpu_id k cpu id_map).perf_cs_etm_session_active
        = id_map.perf_cs_etm_session_active) := by
  have hrange := ids_in_range_run k ops (id_map_init n) id_map (ids_in_range_init k n) hreach
  obtain ⟨hzero, hbound⟩ := put_cpu_id_frame k cpu id_map
  refine ⟨hzero, ?_⟩
  intro hne
  obtain ⟨h1, h2, h3, h4, h5, _⟩ := hbound hne
  obtain ⟨h6, h7⟩ := h5 (hrange.2 cpu hne)
  exact ⟨h1, h6, h7, h2, h3, h4⟩

theorem put_cpu_id_releases_binding_witness :
    api_run mainline (id_map_init 2)
        [api_call.get_cpu_id 0, api_call.get_cpu_id 1, api_call.put_system_id 16]
      = some ⟨2 ^ 18, [16, 18], 0⟩ ∧
    _coresight_trace_id_read_cpu_id 1 ⟨2 ^ 18, [16, 18], 0⟩ ≠ 0 ∧
    _coresight_trace_id_read_cpu_id 0 ⟨2 ^ 18, [16, 18], 0⟩ ≠ 0 ∧
    (_coresight_trace_id_read_cpu_id 1
        (_coresight_trace_id_put_cpu_id mainline 1 ⟨2 ^ 18, [16, 18], 0⟩) = 0 ∧
      test_bit (_coresight_trace_id_read_cpu_id 1 ⟨2 ^ 18, [16, 18], 0⟩).toNat
        (_coresight_trace_id_put_cpu_id mainline 1 ⟨2 ^ 18, [16, 18], 0⟩).used_ids = false) ∧
    (_coresight_trace_id_read_cpu_id 0
        (_coresight_trace_id_put_cpu_id mainline 0 ⟨2 ^ 18, [16, 18], 0⟩) = 0 ∧
      test_bit (_coresight_trace_id_read_cpu_id 0 ⟨2 ^ 18, [16, 18], 0⟩).toNat
        (_coresight_trace_id_put_cpu_id mainline 0 ⟨2 ^ 18, [16, 18], 0⟩).used_ids = false) :=
  have h1 := (put_cpu_id_releases_binding mainline 2
    [api_call.get_cpu_id 0, api_call.get_cpu_id 1, api_call.put_system_id 16]
    ⟨2 ^ 18, [16, 18], 0⟩ (by decide) 1).2 (by decide)
  have h0 := (put_cpu_id_releases_binding mainline 2
    [api_call.get_cpu_id 0, api_call.get_cpu_id 1, api_call.put_system_id 16]
    ⟨2 ^ 18, [16, 18], 0⟩ (by decide) 0).2 (by decide)
  ⟨by decide, by decide, by decide, ⟨h1.1, h1.2.1⟩, ⟨h0.1, h0.2.1⟩⟩

/-- C11: `put_system_id` clears the bit of a valid id that is set and touches
nothing else; for an id outside `(0, limit)` or an id whose bit is clear it
leaves the whole map as it was. In every case the other bits, the per-CPU table
and the session counter are unchanged. -/
theorem put_system_id_frame (k : trace_id_consts) (id_map : coresight_trace_id_map) (id : Int) :
    ((0 < id ∧ id < (k.CORESIGHT_TRACE_ID_RES_TOP : Int) ∧
        test_bit id.toNat id_map.used_ids = true) →
      test_bit id.toNat (coresight_trace_id_put_system_id k id_map id).used_ids = false) ∧
    ((id ≤ 0 ∨ (k.CORESIGHT_TRACE_ID_RES_TOP : Int) ≤ id ∨
        test_bit id.toNat id_map.used_ids = false) →
      coresight_trace_id_put_system_id k id_map id = id_map) ∧
    (∀ j, j ≠ id.toNat → test_bit j (coresight_trace_id_put_system_id k id_map id).used_ids
      = test_bit j id_map.used_ids) ∧
    (coresight_trace_id_put_system_id k id_map id).cpu_map = id_map.cpu_map ∧
    (coresight_trace_id_put_system_id k id_map id).perf_cs_etm_session_active
      = id_map.perf_cs_etm_session_active := by
  unfold coresight_trace_id_put_system_id coresight_trace_id_map_put_system_id
  cases hv : IS_VALID_CS_TRACE_ID k id
  · rw [coresight_trace_id_free_invalid k id id_map hv]
    refine ⟨?_, fun _ => rfl, fun _ _ => rfl, rfl, rfl⟩
    rintro ⟨h1, h2, _⟩
    have := (IS_VALID_CS_TRACE_ID_iff k id).2 ⟨h1, h2⟩
    rw [hv] at this
    exact Bool.noConfusion this
  · have hvr := (IS_VALID_CS_TRACE_ID_iff k id).1 hv
    rw [coresight_trace_id_free_valid k id id_map hv]
    refine ⟨?_, ?_, ?_, rfl, rfl⟩
    · intro _
      simp [test_bit_clear_bit]
    · rintro (h | h | h)
      · omega
      · omega
      · have hc : clear_bit id.toNat id_map.used_ids = id_map.used_ids := by
          unfold test_bit at h
          simp [clear_bit, h]
        rw [hc]
    · intro j hj
      simp [test_bit_clear_bit, hj]

theorem put_system_id_frame_witness :
    ((0 : Int) < 3 ∧ (3 : Int) < (mainline.CORESIGHT_TRACE_ID_RES_TOP : Int) ∧
      test_bit (3 : Int).toNat 10 = true) ∧
    test_bit (3 : Int).toNat (coresight_trace_id_put_system_id mainline ⟨10, [0], 0⟩ 3).used_ids
      = false ∧
    coresight_trace_id_put_system_id mainline ⟨10, [0], 0⟩ 112 = ⟨10, [0], 0⟩ :=
  have h := put_system_id_frame mainline ⟨10, [0], 0⟩ 3
  ⟨by decide, h.1 (by decide),
    (put_system_id_frame mainline ⟨10, [0], 0⟩ 112).2.1 (Or.inr (Or.inl (by decide)))⟩

/-- C12: after `release_all` every one of the `CORESIGHT_TRACE_IDS_MAX` positions
of the bitmap is clear, the entry of every CPU is 0, the table keeps its length
and the session counter is as before; for a bitmap of
`CORESIGHT_TRACE_IDS_MAX` bits the result is the initial map, up to the
counter. -/
theorem release_all_empties (k : trace_id_consts) (id_map : coresight_trace_id_map) :
    (∀ j, j < k.CORESIGHT_TRACE_IDS_MAX →
      test_bit j (coresight_trace_id_release_all k id_map).used_ids = false) ∧
    (∀ cpu, _coresight_trace_id_read_cpu_id cpu (coresight_trace_id_release_all k id_map) = 0) ∧
    (coresight_trace_id_release_all k id_map).cpu_map.length = id_map.cpu_map.length ∧
    (coresight_trace_id_release_all k id_map).perf_cs_etm_session_active
      = id_map.perf_cs_etm_session_active ∧
    (id_map.used_ids < 2 ^ k.CORESIGHT_TRACE_IDS_MAX →
      coresight_trace_id_release_all k id_map
        = { id_map_init id_map.cpu_map.length with
            perf_cs_etm_session_active := id_map.perf_cs_etm_session_active }) := by
  refine ⟨?_, ?_, ?_, rfl, ?_⟩
  · intro j hj
    have : ¬ k.CORESIGHT_TRACE_IDS_MAX ≤ j := by omega
    simp [coresight_trace_id_release_all, test_bit_bitmap_zero, this]
  · intro cpu
    simp only [_coresight_trace_id_read_cpu_id, coresight_trace_id_release_all,
      List.getD_eq_getElem?_getD, List.getElem?_map]
    cases id_map.cpu_map[cpu]? <;> rfl
  · simp [coresight_trace_id_release_all]
  · intro hlt
    have hz : bitmap_zero id_map.used_ids k.CORESIGHT_TRACE_IDS_MAX = 0 := by
      unfold bitmap_zero
      rw [Nat.shiftRight_eq_div_pow, Nat.div_eq_of_lt hlt]
      simp
    have hm : id_map.cpu_map.map (fun _ => (0 : Int))
        = List.replicate id_map.cpu_map.length 0 := by
      induction id_map.cpu_map with
      | nil => rfl
      | cons a l ih => simp [List.replicate_succ, ih]
    simp [coresight_trace_id_release_all, id_map_init, hz, hm]

theorem release_all_empties_witness :
    (2 ^ 18 + 2 : Nat) < 2 ^ mainline.CORESIGHT_TRACE_IDS_MAX ∧
    coresight_trace_id_release_all mainline ⟨2 ^ 18 + 2, [2, 18], 1⟩
      = { id_map_init 2 with perf_cs_etm_session_active := 1 } :=
  ⟨by decide,
    (release_all_empties mainline ⟨2 ^ 18 + 2, [2, 18], 1⟩).2.2.2.2 (by decide)⟩

/-- C17, as stated, fails: on the mainline constants with ids 1 and 3 in use, the
core called with the preferred id 3 (valid, taken) and `TRACE_ID_PREFER_ODD`
takes 2, although the odd id 5 is free and is the lowest free odd id. -/
theorem alloc_new_id_taken_preferred_counterexample :
    IS_VALID_CS_TRACE_ID mainline 3 = true ∧ test_bit 3 10 = true ∧
    lowest_free_odd mainline 10 5 ∧
    coresight_trace_id_alloc_new_id mainline ⟨10, [0], 0⟩ 3 TRACE_ID_PREFER_ODD
      = some (2, ⟨14, [0], 0⟩) := by
  decide

/-- C17, amended: called with a preferred id that is valid but taken, with
`TRACE_ID_PREFER_ODD` set and `TRACE_ID_REQ_STATIC` not set, the core takes the
lowest free id of `[1, limit)` of either parity whenever a free id exists. The
odd scan is tried, before the fall-through, only when the preferred id is not
valid: then the lowest free odd id is taken whenever a free odd id exists. -/
theorem alloc_new_id_odd_only_for_invalid_preferred (k : trace_id_consts)
    (id_map : coresight_trace_id_map) (flags : Nat)
    (hodd : flags &&& TRACE_ID_PREFER_ODD ≠ 0) (hst : flags &&& TRACE_ID_REQ_STATIC = 0) :
    (∀ preferred_id : Int, IS_VALID_CS_TRACE_ID k preferred_id = true →
      test_bit preferred_id.toNat id_map.used_ids = true →
      (∃ j, 1 ≤ j ∧ j < k.CORESIGHT_TRACE_ID_RES_TOP ∧ test_bit j id_map.used_ids = false) →
      ∃ id, lowest_free k id_map.used_ids id ∧
        coresight_trace_id_alloc_new_id k id_map preferred_id flags
          = some ((id : Int), { id_map with used_ids := set_bit id id_map.used_ids })) ∧
    (∀ preferred_id : Int, IS_VALID_CS_TRACE_ID k preferred_id = false →
      (∃ o, o < k.CORESIGHT_TRACE_ID_RES_TOP ∧ o % 2 = 1 ∧
        test_bit o id_map.used_ids = false) →
      ∃ id, lowest_free_odd k id_map.used_ids id ∧
        coresight_trace_id_alloc_new_id k id_map preferred_id flags
          = some ((id : Int), { id_map with used_ids := set_bit id id_map.used_ids })) := by
  constructor
  · intro preferred_id hv hset hfree
    rcases alloc_next_free_spec k id_map with ⟨hfull, _⟩ | ⟨id, hlow, ht⟩
    · obtain ⟨j, hj1, hj2, hj3⟩ := hfree
      rw [hfull j hj1 hj2] at hj3
      exact Bool.noConfusion hj3
    · refine ⟨id, hlow, ?_⟩
      simp only [coresight_trace_id_alloc_new_id, hv, if_true, hset, Bool.not_true,
        Bool.false_eq_true, if_false, hst, ne_eq, not_true_eq_false, ht, trace_id_allocated]
  · intro preferred_id hv hfree
    obtain ⟨r, hr, hcase⟩ := coresight_trace_id_find_odd_id_spec k id_map
    rcases hcase with ⟨_, hall⟩ | hlow
    · obtain ⟨o, ho1, ho2, ho3⟩ := hfree
      rw [hall o ho1 ho2] at ho3
      exact Bool.noConfusion ho3
    · have hne : r ≠ 0 := by
        intro h0
        have := hlow.2.1
        omega
      refine ⟨r, hlow, ?_⟩
      simp [coresight_trace_id_alloc_new_id, hv, hodd, hr, hne, trace_id_allocated]

theorem alloc_new_id_odd_only_for_invalid_preferred_witness :
    (TRACE_ID_PREFER_ODD &&& TRACE_ID_PREFER_ODD ≠ 0) ∧
    (TRACE_ID_PREFER_ODD &&& TRACE_ID_REQ_STATIC = 0) ∧
    (∃ id, lowest_free mainline 10 id ∧
      coresight_trace_id_alloc_new_id mainline ⟨10, [0], 0⟩ 3 TRACE_ID_PREFER_ODD
        = some ((id : Int), ⟨set_bit id 10, [0], 0⟩)) ∧
    (∃ id, lowest_free_odd mainline 10 id ∧
      coresight_trace_id_alloc_new_id mainline ⟨10, [0], 0⟩ 0 TRACE_ID_PREFER_ODD
        = some ((id : Int), ⟨set_bit id 10, [0], 0⟩)) :=
  have h := alloc_new_id_odd_only_for_invalid_preferred mainline ⟨10, [0], 0⟩
    TRACE_ID_PREFER_ODD (by decide) (by decide)
  ⟨by decide, by decide,
    h.1 3 (by decide) (by decide) ⟨2, by decide, by decide, by decide⟩,
    h.2 0 (by decide) ⟨5, by decide, by decide, by decide⟩⟩

/-- C19: `perf_stop` decrements the session counter by one; when the counter was
exactly 1 the bitmap and the per-CPU table are emptied, and when it was anything
else they are left as they were. In particular a stop at counter 0 leaves the
counter at -1 with everything else untouched, and a start and a stop after it
end at -1 again without releasing. -/
theorem perf_stop_releases_at_one (k : trace_id_consts) (id_map : coresight_trace_id_map) :
    (coresight_trace_id_perf_stop k id_map).perf_cs_etm_session_active
      = id_map.perf_cs_etm_session_active - 1 ∧
    (id_map.perf_cs_etm_session_active = 1 →
      (∀ j, j < k.CORESIGHT_TRACE_IDS_MAX →
        test_bit j (coresight_trace_id_perf_stop k id_map).used_ids = false) ∧
      ∀ cpu, _coresight_trace_id_read_cpu_id cpu (coresight_trace_id_perf_stop k id_map) = 0) ∧
    (id_map.perf_cs_etm_session_active ≠ 1 →
      coresight_trace_id_perf_stop k id_map
        = { id_map with
            perf_cs_etm_session_active := id_map.perf_cs_etm_session_active - 1 }) ∧
    (id_map.perf_cs_etm_session_active = 0 →
      coresight_trace_id_perf_stop k id_map
        = { id_map with perf_cs_etm_session_active := -1 } ∧
      coresight_trace_id_perf_stop k
          (coresight_trace_id_perf_start (coresight_trace_id_perf_stop k id_map))
        = { id_map with perf_cs_etm_session_active := -1 }) := by
  have hne : id_map.perf_cs_etm_session_active ≠ 1 →
      coresight_trace_id_perf_stop k id_map
        = { id_map with
            perf_cs_etm_session_active := id_map.perf_cs_etm_session_active - 1 } := by
    intro h
    have h2 : ¬ id_map.perf_cs_etm_session_active - 1 = 0 := by omega
    simp [coresight_trace_id_perf_stop, atomic_dec_return, h2]
  refine ⟨?_, ?_, hne, ?_⟩
  · by_cases h : id_map.perf_cs_etm_session_active = 1
    · simp [coresight_trace_id_perf_stop, atomic_dec_return, h,
        coresight_trace_id_release_all]
    · rw [hne h]
  · intro h
    have hs : coresight_trace_id_perf_stop k id_map
        = coresight_trace_id_release_all k { id_map with perf_cs_etm_session_active := 0 } := by
      simp [coresight_trace_id_perf_stop, atomic_dec_return, h]
    rw [hs]
    refine ⟨?_, ?_⟩
    · intro j hj
      have : ¬ k.CORESIGHT_TRACE_IDS_MAX ≤ j := by omega
      simp [coresight_trace_id_release_all, test_bit_bitmap_zero, this]
    · intro cpu
      simp only [_coresight_trace_id_read_cpu_id, coresight_trace_id_release_all,
        List.getD_eq_getElem?_getD, List.getElem?_map]
      cases id_map.cpu_map[cpu]? <;> rfl
  · intro h
    have h1 : coresight_trace_id_perf_stop k id_map
        = { id_map with perf_cs_etm_session_active := -1 } := by
      rw [hne (by omega), h]
      rfl
    refine ⟨h1, ?_⟩
    rw [h1]
    simp [coresight_trace_id_perf_stop, coresight_trace_id_perf_start, atomic_dec_return,
      atomic_inc]

theorem perf_stop_releases_at_one_witness :
    ((1 : Int) = 1 ∧
      coresight_trace_id_perf_stop mainline ⟨2 ^ 18, [0, 18], 1⟩ = ⟨0, [0, 0], 0⟩) ∧
    ((0 : Int) = 0 ∧
      coresight_trace_id_perf_stop mainline ⟨2 ^ 18, [0, 18], 0⟩ = ⟨2 ^ 18, [0, 18], -1⟩) :=
  ⟨⟨rfl, by decide⟩, rfl,
    ((perf_stop_releases_at_one mainline ⟨2 ^ 18, [0, 18], 0⟩).2.2.2 rfl).1⟩

/-- C20: the loop of the odd search ends for every bitmap. An iteration at a
position `bit` below the limit that finds no id moves on to a strictly higher
position (`find_next_zero_bit` returns a position from `bit` up to the bound),
a budget of `limit` iterations is never used up, and the result is 0 or an odd
id of `[1, limit)` whose bit is clear. -/
theorem find_odd_id_terminates (k : trace_id_consts) (id_map : coresight_trace_id_map) :
    (∀ bit, bit < k.CORESIGHT_TRACE_ID_RES_TOP →
      bit ≤ find_next_zero_bit id_map.used_ids k.CORESIGHT_TRACE_ID_RES_TOP bit ∧
      find_next_zero_bit id_map.used_ids k.CORESIGHT_TRACE_ID_RES_TOP bit
        ≤ k.CORESIGHT_TRACE_ID_RES_TOP) ∧
    (∀ fuel bit, bit < k.CORESIGHT_TRACE_ID_RES_TOP →
      ¬ (find_next_zero_bit id_map.used_ids k.CORESIGHT_TRACE_ID_RES_TOP bit
            < k.CORESIGHT_TRACE_ID_RES_TOP ∧
          find_next_zero_bit id_map.used_ids k.CORESIGHT_TRACE_ID_RES_TOP bit &&& 0x1 ≠ 0) →
      find_odd_id_loop k id_map.used_ids (fuel + 1) 0 bit
        = find_odd_id_loop k id_map.used_ids fuel 0
            (find_next_zero_bit id_map.used_ids k.CORESIGHT_TRACE_ID_RES_TOP bit + 1) ∧
      bit < find_next_zero_bit id_map.used_ids k.CORESIGHT_TRACE_ID_RES_TOP bit + 1) ∧
    ∃ r, find_odd_id_loop k id_map.used_ids k.CORESIGHT_TRACE_ID_RES_TOP 0 1 = some r ∧
      coresight_trace_id_find_odd_id k id_map = some r ∧
      (r = 0 ∨ (r % 2 = 1 ∧ 1 ≤ r ∧ r < k.CORESIGHT_TRACE_ID_RES_TOP ∧
        test_bit r id_map.used_ids = false)) := by
  refine ⟨?_, ?_, ?_⟩
  · intro bit hb
    obtain ⟨h1, h2, _, _⟩ :=
      find_next_zero_bit_spec id_map.used_ids k.CORESIGHT_TRACE_ID_RES_TOP bit
    exact ⟨h2 (le_of_lt hb), h1⟩
  · intro fuel bit hb hnot
    obtain ⟨_, h2, _, _⟩ :=
      find_next_zero_bit_spec id_map.used_ids k.CORESIGHT_TRACE_ID_RES_TOP bit
    have hle := h2 (le_of_lt hb)
    refine ⟨?_, by omega⟩
    simp only [find_odd_id_loop, hb, true_and, if_true, hnot, if_false]
  · obtain ⟨r, hr, hcase⟩ := coresight_trace_id_find_odd_id_spec k id_map
    refine ⟨r, hr, hr, ?_⟩
    rcases hcase with ⟨h0, _⟩ | hlow
    · exact Or.inl h0
    · refine Or.inr ⟨hlow.2.1, ?_, hlow.1, hlow.2.2.1⟩
      have := hlow.2.1
      omega

theorem find_odd_id_terminates_witness :
    (1 : Nat) < mainline.CORESIGHT_TRACE_ID_RES_TOP ∧
    (1 : Nat) ≤ find_next_zero_bit 10 mainline.CORESIGHT_TRACE_ID_RES_TOP 1 ∧
    coresight_trace_id_find_odd_id mainline ⟨10, [0], 0⟩ = some 5 :=
  ⟨by decide,
    ((find_odd_id_terminates mainline ⟨10, [0], 0⟩).1 1 (by decide)).1, by decide⟩

/-- C13: on a map whose session counter is 0, after start, start, stop, with any
calls other than session calls in between, the bitmap and the per-CPU table are
what those other calls alone give and the counter is 1; the stop after that
(again after any other calls) brings the counter to 0 and empties the bitmap and
the table. More generally after `n` starts the first `j < n` stops change only
the counter, and the `n`-th stop releases everything. -/
theorem session_gating (k : trace_id_consts) (id_map : coresight_trace_id_map)
    (h0 : id_map.perf_cs_etm_session_active = 0) (a b c d : List api_call)
    (ha : ∀ op ∈ a, is_session op = false) (hb : ∀ op ∈ b, is_session op = false)
    (hc : ∀ op ∈ c, is_session op = false) (hd : ∀ op ∈ d, is_session op = false) :
    (∃ plain after,
      api_run k id_map (a ++ b ++ c) = some plain ∧
      api_run k id_map
          (a ++ [api_call.perf_start] ++ b ++ [api_call.perf_start] ++ c ++ [api_call.perf_stop])
        = some (with_counter 1 plain) ∧
      api_run k (with_counter 1 plain) (d ++ [api_call.perf_stop]) = some after ∧
      after.perf_cs_etm_session_active = 0 ∧
      (∀ j, j < k.CORESIGHT_TRACE_IDS_MAX → test_bit j after.used_ids = false) ∧
      ∀ cpu, _coresight_trace_id_read_cpu_id cpu after = 0) ∧
    (∀ n j : Nat, j < n →
      api_run k id_map (List.replicate n api_call.perf_start
          ++ List.replicate j api_call.perf_stop)
        = some (with_counter ((n : Int) - (j : Int)) id_map)) ∧
    (∀ n : Nat, 1 ≤ n →
      api_run k id_map (List.replicate n api_call.perf_start
          ++ List.replicate (n - 1) api_call.perf_stop ++ [api_call.perf_stop])
        = some (coresight_trace_id_release_all k id_map)) := by
  have hm : with_counter 0 id_map = id_map := by
    rw [← h0]
    rfl
  have hstarts : ∀ n : Nat, api_run k id_map (List.replicate n api_call.perf_start)
      = some (with_counter (n : Int) id_map) := by
    intro n
    have := api_run_starts k n 0 id_map
    rw [hm] at this
    rw [this]
    congr 2
    ring
  refine ⟨?_, ?_, ?_⟩
  · obtain ⟨ma, hma⟩ := api_run_total k a id_map
    obtain ⟨mb, hmb⟩ := api_run_total k b ma
    obtain ⟨mc, hmc⟩ := api_run_total k c mb
    obtain ⟨md, hmd⟩ := api_run_total k d mc
    refine ⟨mc, coresight_trace_id_release_all k (with_counter 0 md), ?_, ?_, ?_, rfl, ?_, ?_⟩
    · exact api_run_append_some k _ _ _ _ _ (api_run_append_some k _ _ _ _ _ hma hmb) hmc
    · have e1 : api_run k id_map a = some (with_counter 0 ma) := by
        have := api_run_with_counter_some k 0 a ha id_map ma hma
        rw [hm] at this
        exact this
      have e2 := api_run_append_some k _ _ _ _ _ e1 (api_run_perf_start k 0 ma)
      have e3 := api_run_append_some k _ _ _ _ _ e2
        (api_run_with_counter_some k (0 + 1) b hb ma mb hmb)
      have e4 := api_run_append_some k _ _ _ _ _ e3 (api_run_perf_start k (0 + 1) mb)
      have e5 := api_run_append_some k _ _ _ _ _ e4
        (api_run_with_counter_some k (0 + 1 + 1) c hc mb mc hmc)
      have e6 := api_run_append_some k _ _ _ _ _ e5
        (api_run_perf_stop_keep k (0 + 1 + 1) mc (by decide))
      exact e6
    · exact api_run_append_some k _ _ _ _ _
        (api_run_with_counter_some k 1 d hd mc md hmd) (api_run_perf_stop_release k md)
    · intro j hj
      have : ¬ k.CORESIGHT_TRACE_IDS_MAX ≤ j := by omega
      simp [coresight_trace_id_release_all, test_bit_bitmap_zero, this]
    · intro cpu
      simp only [_coresight_trace_id_read_cpu_id, coresight_trace_id_release_all,
        List.getD_eq_getElem?_getD, List.getElem?_map]
      cases (with_counter 0 md).cpu_map[cpu]? <;> rfl
  · intro n j hj
    exact api_run_append_some k _ _ _ _ _ (hstarts n)
      (api_run_stops k j (n : Int) id_map (by omega))
  · intro n hn
    have e1 := api_run_append_some k _ _ _ _ _ (hstarts n)
      (api_run_stops k (n - 1) (n : Int) id_map (by omega))
    have hone : (n : Int) - ((n - 1 : Nat) : Int) = 1 := by omega
    rw [hone] at e1
    have e2 := api_run_append_some k _ _ _ _ _ e1 (api_run_perf_stop_release k id_map)
    rw [hm] at e2
    exact e2

theorem session_gating_witness :
    (id_map_init 2).perf_cs_etm_session_active = 0 ∧
    (∃ plain after,
      api_run mainline (id_map_init 2)
          ([] ++ [api_call.get_cpu_id 1] ++ [api_call.get_system_id]) = some plain ∧
      api_run mainline (id_map_init 2)
          ([] ++ [api_call.perf_start] ++ [api_call.get_cpu_id 1] ++ [api_call.perf_start]
            ++ [api_call.get_system_id] ++ [api_call.perf_stop])
        = some (with_counter 1 plain) ∧
      api_run mainline (with_counter 1 plain) ([] ++ [api_call.perf_stop]) = some after ∧
      after.perf_cs_etm_session_active = 0 ∧
      (∀ j, j < mainline.CORESIGHT_TRACE_IDS_MAX → test_bit j after.used_ids = false) ∧
      ∀ cpu, _coresight_trace_id_read_cpu_id cpu after = 0) ∧
    api_run mainline (id_map_init 2) (List.replicate 2 api_call.perf_start
        ++ List.replicate 1 api_call.perf_stop)
      = some (with_counter (((2 : Nat) : Int) - ((1 : Nat) : Int)) (id_map_init 2)) :=
  have h := session_gating mainline (id_map_init 2) rfl [] [api_call.get_cpu_id 1]
    [api_call.get_system_id] [] (by decide) (by decide) (by decide) (by decide)
  ⟨rfl, h.1, h.2.1 2 1 (by decide)⟩

/-- C14, as stated, fails. On the mainline constants with one CPU, `get_cpu_id 0`
gives 16 and `put_system_id 16` then clears bit 16 while the entry of CPU 0
still holds 16. With two CPUs, after `get_static_system_id 16`, `get_cpu_id 0`
(gets 1), `put_system_id 1`, `get_static_system_id 18`, `get_cpu_id 1` both
CPUs hold the id 1. -/
theorem ownership_broken_by_put_system_id_counterexample :
    api_run mainline (id_map_init 1) [api_call.get_cpu_id 0, api_call.put_system_id 16]
      = some ⟨0, [16], 0⟩ ∧
    _coresight_trace_id_read_cpu_id 0 ⟨0, [16], 0⟩ = 16 ∧ (16 : Int) ≠ 0 ∧
    test_bit (16 : Int).toNat 0 = false ∧
    api_run mainline (id_map_init 2)
        [api_call.get_static_system_id 16, api_call.get_cpu_id 0, api_call.put_system_id 1,
          api_call.get_static_system_id 18, api_call.get_cpu_id 1]
      = some ⟨2 ^ 18 + 2 ^ 16 + 2, [1, 1], 0⟩ ∧
    _coresight_trace_id_read_cpu_id 0 ⟨2 ^ 18 + 2 ^ 16 + 2, [1, 1], 0⟩
      = _coresight_trace_id_read_cpu_id 1 ⟨2 ^ 18 + 2 ^ 16 + 2, [1, 1], 0⟩ := by
  decide

/-- C14, amended: in every state reached from the initial map by a sequence of
public operations in which no `put_system_id` is for an id that a CPU holds at
that time, every entry that is not 0 names an id whose bit is set and no two
CPUs hold the same id. The restriction is needed in every such state: a
`put_system_id` of the id of any CPU leaves the entry and clears its bit. -/
theorem ownership_invariant_without_foreign_put (k : trace_id_consts) (n : Nat)
    (ops : List api_call) (hwb : well_behaved k (id_map_init n) ops = true) :
    ∃ id_map, api_run k (id_map_init n) ops = some id_map ∧
      (∀ cpu, _coresight_trace_id_read_cpu_id cpu id_map ≠ 0 →
        test_bit (_coresight_trace_id_read_cpu_id cpu id_map).toNat id_map.used_ids = true) ∧
      (∀ c1 c2, c1 ≠ c2 → _coresight_trace_id_read_cpu_id c1 id_map ≠ 0 →
        _coresight_trace_id_read_cpu_id c1 id_map
          ≠ _coresight_trace_id_read_cpu_id c2 id_map) ∧
      (∀ cpu, _coresight_trace_id_read_cpu_id cpu id_map ≠ 0 →
        _coresight_trace_id_read_cpu_id cpu
            (coresight_trace_id_put_system_id k id_map
              (_coresight_trace_id_read_cpu_id cpu id_map))
          = _coresight_trace_id_read_cpu_id cpu id_map ∧
        test_bit (_coresight_trace_id_read_cpu_id cpu id_map).toNat
            (coresight_trace_id_put_system_id k id_map
              (_coresight_trace_id_read_cpu_id cpu id_map)).used_ids = false) := by
  obtain ⟨m, hm, hown⟩ := owned_by_cpus_run k ops (id_map_init n) (owned_by_cpus_init n) hwb
  have hrange := ids_in_range_run k ops (id_map_init n) m (ids_in_range_init k n) hm
  refine ⟨m, hm, hown.1, hown.2, ?_⟩
  intro cpu hc
  have hv := hrange.2 cpu hc
  unfold coresight_trace_id_put_system_id coresight_trace_id_map_put_system_id
  rw [coresight_trace_id_free_valid k _ m hv]
  refine ⟨rfl, ?_⟩
  show test_bit (_coresight_trace_id_read_cpu_id cpu m).toNat
    (clear_bit (_coresight_trace_id_read_cpu_id cpu m).toNat m.used_ids) = false
  simp [test_bit_clear_bit]

theorem ownership_invariant_without_foreign_put_witness :
    well_behaved mainline (id_map_init 2)
        [api_call.get_cpu_id 0, api_call.get_system_id, api_call.put_system_id 1,
          api_call.get_cpu_id 1] = true ∧
    ∃ id_map, api_run mainline (id_map_init 2)
        [api_call.get_cpu_id 0, api_call.get_system_id, api_call.put_system_id 1,
          api_call.get_cpu_id 1] = some id_map ∧
      (∀ cpu, _coresight_trace_id_read_cpu_id cpu id_map ≠ 0 →
        test_bit (_coresight_trace_id_read_cpu_id cpu id_map).toNat id_map.used_ids = true) ∧
      (∀ c1 c2, c1 ≠ c2 → _coresight_trace_id_read_cpu_id c1 id_map ≠ 0 →
        _coresight_trace_id_read_cpu_id c1 id_map
          ≠ _coresight_trace_id_read_cpu_id c2 id_map) := by
  obtain ⟨m, h1, h2, h3, _⟩ := ownership_invariant_without_foreign_put mainline 2
    [api_call.get_cpu_id 0, api_call.get_system_id, api_call.put_system_id 1,
      api_call.get_cpu_id 1] (by decide)
  exact ⟨by decide, m, h1, h2, h3⟩

/-- C15: every sequence of public operations with arbitrary arguments, run from
the initial map, ends, and in the state it reaches bit 0 is clear, every set bit
lies in `[1, limit)`, every entry that is not 0 lies in `[1, limit)`, and every
allocating call that returns no negative errno returns an id of `[1, limit)`. -/
theorem reserved_bit_invariant (k : trace_id_consts) (n : Nat) (ops : List api_call) :
    ∃ id_map, api_run k (id_map_init n) ops = some id_map ∧
      test_bit 0 id_map.used_ids = false ∧
      (∀ j, test_bit j id_map.used_ids = true → 1 ≤ j ∧ j < k.CORESIGHT_TRACE_ID_RES_TOP) ∧
      (∀ cpu, _coresight_trace_id_read_cpu_id cpu id_map ≠ 0 →
        1 ≤ _coresight_trace_id_read_cpu_id cpu id_map ∧
        _coresight_trace_id_read_cpu_id cpu id_map < (k.CORESIGHT_TRACE_ID_RES_TOP : Int)) ∧
      (∀ (c : alloc_call) (r : Int) (id_map1 : coresight_trace_id_map),
        run_alloc k id_map c = some (r, id_map1) → 0 ≤ r →
        1 ≤ r ∧ r < (k.CORESIGHT_TRACE_ID_RES_TOP : Int)) := by
  obtain ⟨m, hm⟩ := api_run_total k ops (id_map_init n)
  have hrange := ids_in_range_run k ops (id_map_init n) m (ids_in_range_init k n) hm
  have hentry : ∀ cpu, _coresight_trace_id_read_cpu_id cpu m ≠ 0 →
      1 ≤ _coresight_trace_id_read_cpu_id cpu m ∧
      _coresight_trace_id_read_cpu_id cpu m < (k.CORESIGHT_TRACE_ID_RES_TOP : Int) := by
    intro cpu hc
    have := (IS_VALID_CS_TRACE_ID_iff k _).1 (hrange.2 cpu hc)
    omega
  refine ⟨m, hm, ?_, hrange.1, hentry, ?_⟩
  · cases hb : test_bit 0 m.used_ids
    · rfl
    · have := (hrange.1 0 hb).1
      omega
  · intro c r m1 hrun hr
    by_cases hf : allocates_afresh m c
    · obtain ⟨r2, m2, h, hout⟩ := run_alloc_outcome k m c hf
      rw [hrun] at h
      simp only [Option.some.injEq, Prod.mk.injEq] at h
      obtain ⟨e1, e2⟩ := h
      subst e1 e2
      rcases hout with ⟨_, e | e⟩ | ⟨id, h1, h2, h3, _, _⟩
      · rw [e] at hr
        simp [EINVAL] at hr
      · rw [e] at hr
        simp [EBUSY] at hr
      · omega
    · cases c with
      | get_system_id => exact absurd trivial hf
      | get_static_system_id x => exact absurd trivial hf
      | get_cpu_id cpu =>
        have hb : _coresight_trace_id_read_cpu_id cpu m ≠ 0 := hf
        simp only [run_alloc, get_cpu_id_bound k cpu m hb, Option.some.injEq,
          Prod.mk.injEq] at hrun
        rw [← hrun.1]
        exact hentry cpu hb

theorem reserved_bit_invariant_witness :
    ∃ id_map, api_run mainline (id_map_init 2)
        [api_call.get_cpu_id 0, api_call.get_static_system_id 0, api_call.put_system_id 200,
          api_call.get_system_id] = some id_map ∧
      test_bit 0 id_map.used_ids = false ∧
      (∀ j, test_bit j id_map.used_ids = true →
        1 ≤ j ∧ j < mainline.CORESIGHT_TRACE_ID_RES_TOP) := by
  obtain ⟨m, h1, h2, h3, _⟩ := reserved_bit_invariant mainline 2
    [api_call.get_cpu_id 0, api_call.get_static_system_id 0, api_call.put_system_id 200,
      api_call.get_system_id]
  exact ⟨m, h1, h2, h3⟩

/-- C18: under well-behaved use, that is along sequences of public operations in
which `put_system_id` is only called with an id that no CPU holds at that time,
every state reached from the initial map, also every state on the way, has the
bit set for every entry that is not 0, and distinct CPUs with such entries hold
distinct ids. -/
theorem ownership_invariant_well_behaved (k : trace_id_consts) (n : Nat)
    (ops rest : List api_call) (hwb : well_behaved k (id_map_init n) (ops ++ rest) = true) :
    ∃ id_map, api_run k (id_map_init n) ops = some id_map ∧
      (∀ cpu, _coresight_trace_id_read_cpu_id cpu id_map ≠ 0 →
        test_bit (_coresight_trace_id_read_cpu_id cpu id_map).toNat id_map.used_ids = true) ∧
      (∀ c1 c2, c1 ≠ c2 → _coresight_trace_id_read_cpu_id c1 id_map ≠ 0 →
        _coresight_trace_id_read_cpu_id c2 id_map ≠ 0 →
        _coresight_trace_id_read_cpu_id c1 id_map
          ≠ _coresight_trace_id_read_cpu_id c2 id_map) := by
  have hleft : ∀ (cs : List api_call) (m : coresight_trace_id_map),
      well_behaved k m (cs ++ rest) = true → well_behaved k m cs = true := by
    intro cs
    induction cs with
    | nil => exact fun _ _ => rfl
    | cons c cs ih =>
      intro m hw
      obtain ⟨m2, h2⟩ := api_step_total k m c
      simp only [List.cons_append, well_behaved, h2, Bool.and_eq_true] at hw ⊢
      exact ⟨hw.1, ih m2 hw.2⟩
  obtain ⟨m, hm, hown⟩ := owned_by_cpus_run k ops (id_map_init n) (owned_by_cpus_init n)
    (hleft ops _ hwb)
  exact ⟨m, hm, hown.1, fun c1 c2 hne h1 _ => hown.2 c1 c2 hne h1⟩

theorem ownership_invariant_well_behaved_witness :
    well_behaved mainline (id_map_init 2)
        ([api_call.get_cpu_id 0, api_call.get_cpu_id 1, api_call.put_cpu_id 0]
          ++ [api_call.put_system_id 16, api_call.perf_start]) = true ∧
    ∃ id_map, api_run mainline (id_map_init 2)
        [api_call.get_cpu_id 0, api_call.get_cpu_id 1, api_call.put_cpu_id 0] = some id_map ∧
      (∀ cpu, _coresight_trace_id_read_cpu_id cpu id_map ≠ 0 →
        test_bit (_coresight_trace_id_read_cpu_id cpu id_map).toNat id_map.used_ids
          = true) := by
  obtain ⟨m, h1, h2, _⟩ := ownership_invariant_well_behaved mainline 2
    [api_call.get_cpu_id 0, api_call.get_cpu_id 1, api_call.put_cpu_id 0]
    [api_call.put_system_id 16, api_call.perf_start] (by decide)
  exact ⟨by decide, m, h1, h2⟩

/-- C16: from the initial map, for fewer than `limit` pairwise distinct valid CPUs
taken in any order (the order in which the lock serialises the callers), one
`get_cpu_id` per CPU succeeds every time, with ids of `[1, limit)` that are
pairwise distinct. -/
theorem get_cpu_id_distinct_cpus (k : trace_id_consts) (n : Nat) (cpus : List Nat)
    (hnodup : cpus.Nodup) (hvalid : ∀ c ∈ cpus, c < n)
    (hfew : cpus.length < k.CORESIGHT_TRACE_ID_RES_TOP) :
    ∃ ids id_map1, get_cpu_id_each k (id_map_init n) cpus = some (ids, id_map1) ∧
      ids.length = cpus.length ∧
      (∀ r ∈ ids, 1 ≤ r ∧ r < (k.CORESIGHT_TRACE_ID_RES_TOP : Int)) ∧
      ids.Nodup := by
  have hcpus : ∀ c ∈ cpus, c < (id_map_init n).cpu_map.length ∧
      _coresight_trace_id_read_cpu_id c (id_map_init n) = 0 := by
    intro c hc
    refine ⟨?_, read_id_map_init n c⟩
    simpa [id_map_init] using hvalid c hc
  have hcard : (ids_in_use k (id_map_init n).used_ids).card + cpus.length
      < k.CORESIGHT_TRACE_ID_RES_TOP := by
    have : (ids_in_use k (id_map_init n).used_ids).card = 0 := ids_in_use_zero k
    omega
  obtain ⟨ids, m1, h, hl, hids, hnd⟩ :=
    get_cpu_id_each_spec k cpus (id_map_init n) hnodup hcpus hcard
  refine ⟨ids, m1, h, hl, ?_, hnd⟩
  intro r hr
  have := (IS_VALID_CS_TRACE_ID_iff k r).1 (hids r hr).1
  omega

theorem get_cpu_id_distinct_cpus_witness :
    [2, 0, 1].Nodup ∧ (∀ c ∈ [2, 0, 1], c < 3) ∧
    [2, 0, 1].length < mainline.CORESIGHT_TRACE_ID_RES_TOP ∧
    get_cpu_id_each mainline (id_map_init 3) [2, 0, 1]
      = some ([20, 16, 18], ⟨2 ^ 20 + 2 ^ 16 + 2 ^ 18, [16, 18, 20], 0⟩) ∧
    ∃ ids id_map1, get_cpu_id_each mainline (id_map_init 3) [2, 0, 1] = some (ids, id_map1) ∧
      ids.length = [2, 0, 1].length ∧
      (∀ r ∈ ids, 1 ≤ r ∧ r < (mainline.CORESIGHT_TRACE_ID_RES_TOP : Int)) ∧
      ids.Nodup :=
  ⟨by decide, by decide, by decide, by decide,
    get_cpu_id_distinct_cpus mainline 3 [2, 0, 1] (by decide) (by decide) (by decide)⟩

end CoresightTraceId
